import Mathlib

/-!
Electronic door lock (`Electronic_lock.c`, ATmega16L, CodeVision AVR).

A shallow embedding of the lock controller: the keypad scanner `keypad`, the
symbol table `key_to_char`, the verification routine `password_check`, the
credential-change routine `new_password` and the menu loop of `main`.

Conventions of the embedding:

* a C `char` is a `Char`; the byte `0` returned by the `default:` branch of
  `key_to_char` is `Char.ofNat 0`;
* an `unsigned char` is a `Nat`, reduced `% 256` where the code can overflow;
* the three 6-byte arrays are lists, written with `List.set` and read with
  `List.getD`; `State.wf` says that each holds six bytes;
* the keypad is read through `PIND`; every evaluation of `PIND` in the source
  takes the next element of a list of pin samples;
* the controller routines receive the successive return values of `keypad()`
  as a list of key codes;
* `delay_ms` and the LCD calls carry no state and are left out.
-/

namespace ElectronicLock

/-! ## Symbols -/

/-- Helper `key_to_char` (lines 38-55): numeric key id to ASCII character.
In the stored text of line 50 the star between the quotes is missing together
with the opener of the trailing comment; the value is the star character, as
the header comment of `keypad` (line 308, `10='*'`), line 95 and line 356
state. -/
def key_to_char (key : Nat) : Char :=
  match key with
  | 1 => '1'
  | 2 => '2'
  | 3 => '3'
  | 4 => '4'
  | 5 => '5'
  | 6 => '6'
  | 7 => '7'
  | 8 => '8'
  | 9 => '9'
  | 10 => '*'
  | 0 => '0'
  | 11 => '#'
  | _ => Char.ofNat 0

/-- The key assignment of `keypad` (lines 313 and 347-358): `key` starts at the
invalid value 255 and is overwritten by the twelve `if` statements in order. -/
def key_map (row col : Nat) : Nat :=
  let key := 255
  let key := if row = 0 ∧ col = 0 then 1 else key
  let key := if row = 0 ∧ col = 1 then 2 else key
  let key := if row = 0 ∧ col = 2 then 3 else key
  let key := if row = 1 ∧ col = 0 then 4 else key
  let key := if row = 1 ∧ col = 1 then 5 else key
  let key := if row = 1 ∧ col = 2 then 6 else key
  let key := if row = 2 ∧ col = 0 then 7 else key
  let key := if row = 2 ∧ col = 1 then 8 else key
  let key := if row = 2 ∧ col = 2 then 9 else key
  let key := if row = 3 ∧ col = 0 then 10 else key
  let key := if row = 3 ∧ col = 1 then 0 else key
  let key := if row = 3 ∧ col = 2 then 11 else key
  key

/-! ## Keypad scanner -/

/-- The column test of lines 332-335. Each `PIND` in the `if`/`else if` chain
is one read; the result is the column and the samples not yet read, or `none`
when the samples end first. -/
def read_col : List Nat → Option (Nat × List Nat)
  | [] => none
  | p :: pins =>
    if p &&& 0x01 = 0 then some (0, pins)
    else match pins with
      | [] => none
      | p :: pins =>
        if p &&& 0x02 = 0 then some (1, pins)
        else match pins with
          | [] => none
          | p :: pins =>
            if p &&& 0x04 = 0 then some (2, pins) else some (0xFF, pins)

/-- The disjunction `(PIND & 0x01)==0 || (PIND & 0x02)==0 || (PIND & 0x04)==0`
that lines 341-344 repeat for each row, with the short-circuit of `||`. -/
def any_col_low : List Nat → Option (Bool × List Nat)
  | [] => none
  | p :: pins =>
    if p &&& 0x01 = 0 then some (true, pins)
    else match pins with
      | [] => none
      | p :: pins =>
        if p &&& 0x02 = 0 then some (true, pins)
        else match pins with
          | [] => none
          | p :: pins => some (decide (p &&& 0x04 = 0), pins)

/-- One operand `(row==r && (...))` of the re-check condition: `PIND` is read
only when `row == r`. -/
def recheck_row (row r : Nat) (pins : List Nat) : Option (Bool × List Nat) :=
  if row = r then any_col_low pins else some (false, pins)

/-- The re-check condition of lines 341-344, the four operands joined by
`||`. -/
def recheck (row : Nat) (pins : List Nat) : Option (Bool × List Nat) :=
  match recheck_row row 0 pins with
  | none => none
  | some (true, pins) => some (true, pins)
  | some (false, pins) =>
    match recheck_row row 1 pins with
    | none => none
    | some (true, pins) => some (true, pins)
    | some (false, pins) =>
      match recheck_row row 2 pins with
      | none => none
      | some (true, pins) => some (true, pins)
      | some (false, pins) => recheck_row row 3 pins

/-- The release loop of lines 361-363: `PIND` is read until
`(PIND & 0x07) == 0x07`. -/
def wait_release : List Nat → Option (List Nat)
  | [] => none
  | p :: pins => if p &&& 0x07 ≠ 0x07 then wait_release pins else some pins

/-- The two row-select writes of lines 325 and 327 on the 8-bit `PORTD`. -/
def row_select (portd row : Nat) : Nat :=
  let portd := (portd ||| ((1 <<< 3) ||| (1 <<< 4) ||| (1 <<< 5) ||| (1 <<< 6))) % 256
  (portd &&& (0xFF ^^^ (1 <<< (3 + row)))) % 256

/-- Result of one pass of the `for` loop over the rows. -/
inductive Scan where
  /-- A press was accepted and released: `return key`. -/
  | key (key portd : Nat) (pins : List Nat)
  /-- The loop ended with no key accepted. -/
  | none (portd : Nat) (pins : List Nat)
  /-- The pin samples ended inside the pass. -/
  | starved
deriving DecidableEq, Repr

/-- The `for (row = 0; row < 4; row++)` loop of lines 323-368; `n` is the
number of rows still to scan, `row` the current one. -/
def scan_rows : Nat → Nat → Nat → List Nat → Scan
  | 0, _, portd, pins => Scan.none portd pins
  | n + 1, row, portd, pins =>
    let portd := row_select portd row
    match read_col pins with
    | none => Scan.starved
    | some (col, pins) =>
      if col ≠ 0xFF then
        match recheck row pins with
        | none => Scan.starved
        | some (true, pins) =>
          let key := key_map row col
          match wait_release pins with
          | none => Scan.starved
          | some pins => Scan.key key portd pins
        | some (false, pins) => scan_rows n (row + 1) portd pins
      else scan_rows n (row + 1) portd pins

/-- The `while (1)` loop of lines 321-369, bounded by `fuel` passes. -/
def keypad_loop : Nat → Nat → List Nat → Option (Nat × Nat × List Nat)
  | 0, _, _ => none
  | fuel + 1, portd, pins =>
    match scan_rows 4 0 portd pins with
    | Scan.key key portd pins => some (key, portd, pins)
    | Scan.starved => none
    | Scan.none portd pins => keypad_loop fuel portd pins

/-- Function `keypad` (lines 311-370) on a value of `PORTD` and the future
samples of `PIND`: the key code returned, the new `PORTD` and the samples left,
or `none` when the samples end before a key is returned. A pass reads at least
one sample, so `pins.length + 1` passes are never used up. -/
def keypad (portd : Nat) (pins : List Nat) : Option (Nat × Nat × List Nat) :=
  keypad_loop (pins.length + 1)
    ((portd ||| ((1 <<< 3) ||| (1 <<< 4) ||| (1 <<< 5) ||| (1 <<< 6))) % 256) pins

/-! ## Controller state -/

/-- The globals of the program that the controller reads or writes, and the
output port `PORTC`. `PORTC_trace` is a history variable: every value written
to `PORTC`, oldest first. -/
structure State where
  /-- `char eeprom saved_password[6]` -/
  saved_password : List Char
  /-- `char password_entry[6]` -/
  password_entry : List Char
  /-- `char password_temp[6]` -/
  password_temp : List Char
  /-- `unsigned char attempts` -/
  attempts : Nat
  /-- `bit access_granted` -/
  access_granted : Bool
  /-- Output register `PORTC` (bit 0 buzzer, 1 relay, 2 alarm LED, 3 red LED) -/
  PORTC : Nat
  /-- History of the writes to `PORTC` -/
  PORTC_trace : List Nat
deriving DecidableEq, Repr

/-- The three arrays hold six bytes each, as declared in lines 19, 23 and 24. -/
def State.wf (s : State) : Prop :=
  s.saved_password.length = 6 ∧ s.password_entry.length = 6 ∧ s.password_temp.length = 6

/-- The bit assignment `PORTC.n = v`. -/
def State.portc (s : State) (n : Nat) (v : Bool) : State :=
  let p := if v then s.PORTC ||| (1 <<< n) else s.PORTC &&& (0xFF ^^^ (1 <<< n))
  { s with PORTC := p, PORTC_trace := s.PORTC_trace ++ [p] }

/-- How a routine of the controller ends on a finite list of key events. -/
inductive Outcome (α : Type) where
  /-- The routine returned `v`; `keys` are the key events not yet read. -/
  | returned (v : α) (s : State) (keys : List Nat)
  /-- The routine is in the endless loop of lines 216-219. -/
  | locked (s : State) (keys : List Nat)
  /-- The routine is inside `keypad()` and no key event is left. -/
  | waiting (s : State)
deriving DecidableEq, Repr

/-- The state an outcome ends in. -/
def Outcome.state {α : Type} : Outcome α → State
  | Outcome.returned _ s _ => s
  | Outcome.locked s _ => s
  | Outcome.waiting s => s

/-- The value a routine returned, `none` when it did not return. -/
def Outcome.value {α : Type} : Outcome α → Option α
  | Outcome.returned v _ _ => some v
  | Outcome.locked _ _ => none
  | Outcome.waiting _ => none

/-- Whether the routine ended in the endless loop of lines 216-219. -/
def Outcome.is_locked {α : Type} : Outcome α → Bool
  | Outcome.returned _ _ _ => false
  | Outcome.locked _ _ => true
  | Outcome.waiting _ => false

/-- The key events an outcome leaves unread (all are read when `keypad()`
waits for more). -/
def Outcome.unread {α : Type} : Outcome α → List Nat
  | Outcome.returned _ _ keys => keys
  | Outcome.locked _ keys => keys
  | Outcome.waiting _ => []

/-- The outcome when further key events `more` follow the input. -/
def Outcome.extend {α : Type} (more : List Nat) : Outcome α → Outcome α
  | Outcome.returned v s keys => Outcome.returned v s (keys ++ more)
  | Outcome.locked s keys => Outcome.locked s (keys ++ more)
  | Outcome.waiting s => Outcome.waiting s

/-- The byte 0. -/
def NUL : Char := Char.ofNat 0

/-- The entry loop `for (i = 0; i < 6; i++) { k = keypad(); buf[i] =
key_to_char(k); }` (lines 170-174, 242-246, 266-268, 275-277): `n` iterations
are left, `i` is the index. The second component is `none` when `keypad()` is
entered with no key event left. -/
def read_code : Nat → Nat → List Char → List Nat → List Char × Option (List Nat)
  | 0, _, buf, keys => (buf, some keys)
  | _ + 1, _, buf, [] => (buf, none)
  | n + 1, i, buf, k :: keys => read_code n (i + 1) (buf.set i (key_to_char k)) keys

/-- The counting loop of lines 178-181: `n` iterations are left, `i` is the
index, `match_count` the counter. -/
def count_matches (entry saved : List Char) : Nat → Nat → Nat → Nat
  | 0, _, match_count => match_count
  | n + 1, i, match_count =>
    count_matches entry saved n (i + 1)
      (if entry.getD i NUL = saved.getD i NUL then match_count + 1 else match_count)

/-- The comparison loops of lines 250-253 and 280-283: the flag starts at 1 and
the loop is left with the flag 0 at the first unequal position. -/
def all_equal (a b : List Char) : Nat → Nat → Nat
  | 0, _ => 1
  | n + 1, i => if a.getD i NUL ≠ b.getD i NUL then 0 else all_equal a b n (i + 1)

/-- The copy loop of lines 287-289, `saved_password[i] = password_temp[i]`. -/
def copy_code (src : List Char) : Nat → Nat → List Char → List Char
  | 0, _, dst => dst
  | n + 1, i, dst => copy_code src n (i + 1) (dst.set i (src.getD i NUL))

/-! ## Controller routines -/

/-- Function `password_check` (lines 159-223). -/
def password_check (s : State) (keys : List Nat) : Outcome Nat :=
  match read_code 6 0 s.password_entry keys with
  | (buf, none) => Outcome.waiting { s with password_entry := buf }
  | (buf, some keys) =>
    let s := { s with password_entry := buf }
    let match_count := count_matches s.password_entry s.saved_password 6 0 0
    if match_count = 6 then
      let s := s.portc 1 true
      let s := s.portc 0 true
      let s := s.portc 0 false
      let s := s.portc 1 false
      let s := { s with attempts := 0 }
      Outcome.returned 1 s keys
    else
      let s := { s with attempts := (s.attempts + 1) % 256 }
      let s := s.portc 3 true
      let s := s.portc 0 true
      let s := s.portc 0 false
      let s := s.portc 3 false
      if s.attempts ≥ 3 then
        let s := s.portc 2 true
        let s := s.portc 0 true
        let s := s.portc 0 false
        Outcome.locked s keys
      else Outcome.returned 0 s keys

/-- Function `new_password` (lines 228-301). -/
def new_password (s : State) (keys : List Nat) : Outcome Unit :=
  match read_code 6 0 s.password_entry keys with
  | (buf, none) => Outcome.waiting { s with password_entry := buf }
  | (buf, some keys) =>
    let s := { s with password_entry := buf }
    let ok_old := all_equal s.password_entry s.saved_password 6 0
    if ok_old = 0 then
      let s := s.portc 0 true
      let s := s.portc 0 false
      Outcome.returned () s keys
    else
      match read_code 6 0 s.password_temp keys with
      | (buf, none) => Outcome.waiting { s with password_temp := buf }
      | (buf, some keys) =>
        let s := { s with password_temp := buf }
        match read_code 6 0 s.password_entry keys with
        | (buf, none) => Outcome.waiting { s with password_entry := buf }
        | (buf, some keys) =>
          let s := { s with password_entry := buf }
          let confirm_ok := all_equal s.password_entry s.password_temp 6 0
          if confirm_ok ≠ 0 then
            let s := { s with saved_password := copy_code s.password_temp 6 0 s.saved_password }
            Outcome.returned () s keys
          else
            let s := s.portc 0 true
            let s := s.portc 0 false
            Outcome.returned () s keys

/-! ## States at the exits of the routines -/

/-- The state in which `password_check` returns 1 (lines 184-194). -/
def granted_state (s : State) (entry : List Nat) : State :=
  { ((((({ s with password_entry := entry.map key_to_char } : State).portc 1 true).portc 0
      true).portc 0 false).portc 1 false) with attempts := 0 }

/-- The state after the failure pulse of lines 197-204. -/
def denied_state (s : State) (entry : List Nat) : State :=
  (((({ s with password_entry := entry.map key_to_char,
               attempts := (s.attempts + 1) % 256 } : State).portc 3 true).portc 0
      true).portc 0 false).portc 3 false

/-- The state in which the endless loop of line 216 is entered. -/
def lockout_state (s : State) (entry : List Nat) : State :=
  (((denied_state s entry).portc 2 true).portc 0 true).portc 0 false

/-- The state in which `new_password` returns after a wrong old code
(lines 255-260). -/
def old_wrong_state (s : State) (old : List Nat) : State :=
  (({ s with password_entry := old.map key_to_char } : State).portc 0 true).portc 0 false

/-- The state in which `new_password` returns after the commit of lines
285-294. -/
def committed_state (s : State) (new conf : List Nat) : State :=
  { s with password_entry := conf.map key_to_char, password_temp := new.map key_to_char,
           saved_password := new.map key_to_char }

/-- The state in which `new_password` returns after a confirmation mismatch
(lines 295-300). -/
def mismatch_state (s : State) (new conf : List Nat) : State :=
  (({ s with password_entry := conf.map key_to_char,
             password_temp := new.map key_to_char } : State).portc 0 true).portc 0 false

/-- One iteration of the menu loop of `main` (lines 104-123). -/
def menu_step (s : State) (keys : List Nat) : Outcome Unit :=
  match keys with
  | [] => Outcome.waiting s
  | k :: keys =>
    if k = 10 then
      match password_check s keys with
      | Outcome.returned r s keys =>
        let s := { s with access_granted := decide (r ≠ 0) }
        if s.access_granted then
          let s := s.portc 1 true
          let s := s.portc 1 false
          let s := { s with attempts := 0 }
          Outcome.returned () s keys
        else Outcome.returned () s keys
      | Outcome.locked s keys => Outcome.locked s keys
      | Outcome.waiting s => Outcome.waiting s
    else if k = 11 then new_password s keys
    else Outcome.returned () s keys

/-- The compiled-in content of the EEPROM array (line 19). -/
def default_password : List Char := ['1', '2', '3', '4', '5', '6']

/-- The state in which `main` enters the menu loop (lines 71-89) when the EEPROM
holds `eeprom`: `PORTC = 0x00`, `attempts = 0`, `access_granted = 0`, and the
RAM arrays as the C start-up code zeroes them. -/
def power_on (eeprom : List Char) : State :=
  { saved_password := eeprom
    password_entry := List.replicate 6 NUL
    password_temp := List.replicate 6 NUL
    attempts := 0
    access_granted := false
    PORTC := 0x00
    PORTC_trace := [0x00] }

/-- The `while (1)` loop of `main` (lines 92-126), bounded by `fuel`
iterations. -/
def main_loop : Nat → State → List Nat → Outcome Unit
  | 0, s, _ => Outcome.waiting s
  | fuel + 1, s, keys =>
    match menu_step s keys with
    | Outcome.returned _ s keys => main_loop fuel s keys
    | Outcome.locked s keys => Outcome.locked s keys
    | Outcome.waiting s => Outcome.waiting s

/-- Function `main` (lines 60-127) on the EEPROM content and the key events of
a run. An iteration that returns to the menu has read at least one key event,
so `keys.length + 1` iterations are never used up. -/
def main (eeprom : List Char) (keys : List Nat) : Outcome Unit :=
  main_loop (keys.length + 1) (power_on eeprom) keys

/-- The symbols of the keypad: the ten digits, the star and the hash. -/
def alphabet : List Char :=
  ['0', '1', '2', '3', '4', '5', '6', '7', '8', '9', '*', '#']

/-- A credential: exactly six symbols of the keypad alphabet. -/
def valid_credential (l : List Char) : Prop :=
  l.length = 6 ∧ ∀ c ∈ l, c ∈ alphabet

/-- Key codes that `keypad` returns on some value of `PORTD` and some samples
of `PIND`. -/
def keypad_key (k : Nat) : Prop :=
  ∃ portd pins portd1 rest, keypad portd pins = some (k, portd1, rest)

/-- States in which the controller is at the menu (line 104), over all runs
from a power-on with any EEPROM content. -/
inductive MenuReachable : State → Prop where
  | boot (eeprom : List Char) (h : eeprom.length = 6) : MenuReachable (power_on eeprom)
  | step {s s1 : State} {keys keys1 : List Nat} :
      MenuReachable s → menu_step s keys = Outcome.returned () s1 keys1 → MenuReachable s1

/-- The controller is at the menu in state `s`, and `n` verifications have
failed since power-on or since the last successful verification. -/
inductive FailedSince : State → Nat → Prop where
  | boot (eeprom : List Char) (h : eeprom.length = 6) : FailedSince (power_on eeprom) 0
  | granted {s s1 : State} {n : Nat} {entry rest : List Nat} :
      FailedSince s n → entry.length = 6 → entry.map key_to_char = s.saved_password →
      menu_step s (10 :: (entry ++ rest)) = Outcome.returned () s1 rest → FailedSince s1 0
  | denied {s s1 : State} {n : Nat} {entry rest : List Nat} :
      FailedSince s n → entry.length = 6 → entry.map key_to_char ≠ s.saved_password →
      menu_step s (10 :: (entry ++ rest)) = Outcome.returned () s1 rest →
      FailedSince s1 (n + 1)
  | other {s s1 : State} {n k : Nat} {keys rest : List Nat} :
      FailedSince s n → k ≠ 10 →
      menu_step s (k :: keys) = Outcome.returned () s1 rest → FailedSince s1 n

/-- The relay output `PORTC.1` in a value of `PORTC`. -/
def relay (p : Nat) : Bool := p.testBit 1

/-- The values written to `PORTC` between the state `s` and the end of the
outcome `o`. -/
def Outcome.writes {α : Type} (s : State) (o : Outcome α) : List Nat :=
  o.state.PORTC_trace.drop s.PORTC_trace.length

/-- From `s` to `s1` the history of `PORTC` grew by values that all carry the
relay bit of `s`, and `s1` still has that relay bit. -/
def relay_kept (s s1 : State) : Prop :=
  ∃ added, s1.PORTC_trace = s.PORTC_trace ++ added ∧
    (∀ p ∈ added, relay p = relay s.PORTC) ∧ relay s1.PORTC = relay s.PORTC

theorem length_six {α : Type} (l : List α) (h : l.length = 6) :
    ∃ a b c d e f, l = [a, b, c, d, e, f] := by
  match l, h with
  | [a, b, c, d, e, f], _ => exact ⟨a, b, c, d, e, f, rfl⟩

theorem read_code_entry (buf : List Char) (entry rest : List Nat)
    (hbuf : buf.length = 6) (hentry : entry.length = 6) :
    read_code 6 0 buf (entry ++ rest) = (entry.map key_to_char, some rest) := by
  obtain ⟨b0, b1, b2, b3, b4, b5, rfl⟩ := length_six buf hbuf
  obtain ⟨k0, k1, k2, k3, k4, k5, rfl⟩ := length_six entry hentry
  simp [read_code]

theorem read_code_starved (n i : Nat) (buf : List Char) (keys : List Nat)
    (h : keys.length < n) : (read_code n i buf keys).2 = none := by
  induction n generalizing i buf keys with
  | zero => omega
  | succ n ih =>
    cases keys with
    | nil => simp [read_code]
    | cons k keys =>
      simp only [read_code]
      exact ih _ _ _ (by simpa using h)

theorem count_matches_six (a b : List Char) (ha : a.length = 6) (hb : b.length = 6) :
    count_matches a b 6 0 0 = 6 ↔ a = b := by
  obtain ⟨a0, a1, a2, a3, a4, a5, rfl⟩ := length_six a ha
  obtain ⟨b0, b1, b2, b3, b4, b5, rfl⟩ := length_six b hb
  simp only [count_matches, List.getD_cons_zero, List.getD_cons_succ]
  constructor
  · intro h
    split_ifs at h <;> simp_all
  · intro h
    simp only [List.cons.injEq, and_true] at h
    obtain ⟨h0, h1, h2, h3, h4, h5⟩ := h
    simp [h0, h1, h2, h3, h4, h5]

theorem all_equal_six (a b : List Char) (ha : a.length = 6) (hb : b.length = 6) :
    (all_equal a b 6 0 = 1 ↔ a = b) ∧ (all_equal a b 6 0 = 0 ↔ a ≠ b) := by
  obtain ⟨a0, a1, a2, a3, a4, a5, rfl⟩ := length_six a ha
  obtain ⟨b0, b1, b2, b3, b4, b5, rfl⟩ := length_six b hb
  simp only [all_equal, List.getD_cons_zero, List.getD_cons_succ]
  split_ifs <;> simp_all

theorem copy_code_six (src dst : List Char) (hs : src.length = 6) (hd : dst.length = 6) :
    copy_code src 6 0 dst = src := by
  obtain ⟨a0, a1, a2, a3, a4, a5, rfl⟩ := length_six src hs
  obtain ⟨b0, b1, b2, b3, b4, b5, rfl⟩ := length_six dst hd
  simp [copy_code]

/-! ## Frame lemmas for the port writes -/

@[simp] theorem portc_saved_password (s : State) (n : Nat) (v : Bool) :
    (s.portc n v).saved_password = s.saved_password := rfl

@[simp] theorem portc_password_entry (s : State) (n : Nat) (v : Bool) :
    (s.portc n v).password_entry = s.password_entry := rfl

@[simp] theorem portc_password_temp (s : State) (n : Nat) (v : Bool) :
    (s.portc n v).password_temp = s.password_temp := rfl

@[simp] theorem portc_attempts (s : State) (n : Nat) (v : Bool) :
    (s.portc n v).attempts = s.attempts := rfl

@[simp] theorem portc_access_granted (s : State) (n : Nat) (v : Bool) :
    (s.portc n v).access_granted = s.access_granted := rfl

/-! ## `password_check` on a complete entry -/

theorem password_check_match (s : State) (entry rest : List Nat)
    (hbuf : s.password_entry.length = 6) (hlen : entry.length = 6)
    (heq : entry.map key_to_char = s.saved_password) :
    password_check s (entry ++ rest) = Outcome.returned 1 (granted_state s entry) rest := by
  have hsaved : s.saved_password.length = 6 := by rw [← heq]; simpa using hlen
  have hc : count_matches (entry.map key_to_char) s.saved_password 6 0 0 = 6 :=
    (count_matches_six _ _ (by simpa using hlen) hsaved).2 heq
  simp only [password_check, read_code_entry _ _ _ hbuf hlen, hc, if_true, granted_state]

theorem password_check_mismatch (s : State) (entry rest : List Nat)
    (hbuf : s.password_entry.length = 6) (hlen : entry.length = 6)
    (hsaved : s.saved_password.length = 6)
    (hne : entry.map key_to_char ≠ s.saved_password) :
    password_check s (entry ++ rest) =
      if (s.attempts + 1) % 256 ≥ 3 then Outcome.locked (lockout_state s entry) rest
      else Outcome.returned 0 (denied_state s entry) rest := by
  have hc : ¬ count_matches (entry.map key_to_char) s.saved_password 6 0 0 = 6 :=
    fun h => hne ((count_matches_six _ _ (by simpa using hlen) hsaved).1 h)
  simp only [password_check, read_code_entry _ _ _ hbuf hlen, hc, if_false, portc_attempts,
    lockout_state, denied_state]

theorem password_check_starved (s : State) (keys : List Nat) (h : keys.length < 6) :
    password_check s keys =
      Outcome.waiting { s with password_entry := (read_code 6 0 s.password_entry keys).1 } := by
  have h2 := read_code_starved 6 0 s.password_entry keys h
  unfold password_check
  rcases hrc : read_code 6 0 s.password_entry keys with ⟨buf, o⟩
  rw [hrc] at h2
  simp only at h2
  subst h2
  rfl

/-! ## `new_password` on complete entries -/

theorem new_password_old_wrong (s : State) (old rest : List Nat)
    (hbuf : s.password_entry.length = 6) (hsaved : s.saved_password.length = 6)
    (hold : old.length = 6) (hne : old.map key_to_char ≠ s.saved_password) :
    new_password s (old ++ rest) = Outcome.returned () (old_wrong_state s old) rest := by
  have h0 : all_equal (old.map key_to_char) s.saved_password 6 0 = 0 :=
    (all_equal_six _ _ (by simpa using hold) hsaved).2.2 hne
  simp only [new_password, read_code_entry _ _ _ hbuf hold, h0, if_true, old_wrong_state]

theorem new_password_commit (s : State) (old new conf rest : List Nat)
    (hbuf : s.password_entry.length = 6) (htemp : s.password_temp.length = 6)
    (hold : old.length = 6) (hnew : new.length = 6) (hconf : conf.length = 6)
    (heq : old.map key_to_char = s.saved_password)
    (hsame : conf.map key_to_char = new.map key_to_char) :
    new_password s (old ++ (new ++ (conf ++ rest))) =
      Outcome.returned () (committed_state s new conf) rest := by
  have hsaved : s.saved_password.length = 6 := by rw [← heq]; simpa using hold
  have h0 : ¬ all_equal (old.map key_to_char) s.saved_password 6 0 = 0 := by
    rw [(all_equal_six _ _ (by simpa using hold) hsaved).2]
    exact fun h => h heq
  have h1 : all_equal (conf.map key_to_char) (new.map key_to_char) 6 0 ≠ 0 := by
    rw [Ne, (all_equal_six _ _ (by simpa using hconf) (by simpa using hnew)).2]
    exact fun h => h hsame
  have hold2 : (old.map key_to_char).length = 6 := by simpa using hold
  have hnew2 : (new.map key_to_char).length = 6 := by simpa using hnew
  simp only [new_password, read_code_entry _ _ _ hbuf hold, h0, if_false,
    read_code_entry _ _ _ htemp hnew, read_code_entry _ _ _ hold2 hconf, h1, if_true,
    copy_code_six _ _ hnew2 hsaved, committed_state, ne_eq, not_false_eq_true]

theorem new_password_mismatch (s : State) (old new conf rest : List Nat)
    (hbuf : s.password_entry.length = 6) (htemp : s.password_temp.length = 6)
    (hold : old.length = 6) (hnew : new.length = 6) (hconf : conf.length = 6)
    (heq : old.map key_to_char = s.saved_password)
    (hdiff : conf.map key_to_char ≠ new.map key_to_char) :
    new_password s (old ++ (new ++ (conf ++ rest))) =
      Outcome.returned () (mismatch_state s new conf) rest := by
  have hsaved : s.saved_password.length = 6 := by rw [← heq]; simpa using hold
  have h0 : ¬ all_equal (old.map key_to_char) s.saved_password 6 0 = 0 := by
    rw [(all_equal_six _ _ (by simpa using hold) hsaved).2]
    exact fun h => h heq
  have h1 : ¬ all_equal (conf.map key_to_char) (new.map key_to_char) 6 0 ≠ 0 := by
    rw [Ne, (all_equal_six _ _ (by simpa using hconf) (by simpa using hnew)).2]
    exact fun h => h hdiff
  have hold2 : (old.map key_to_char).length = 6 := by simpa using hold
  simp only [new_password, read_code_entry _ _ _ hbuf hold, h0, if_false,
    read_code_entry _ _ _ htemp hnew, read_code_entry _ _ _ hold2 hconf, h1,
    mismatch_state]

theorem read_code_some (buf b : List Char) (keys k1 : List Nat) (hbuf : buf.length = 6)
    (h : read_code 6 0 buf keys = (b, some k1)) :
    ∃ entry, entry.length = 6 ∧ keys = entry ++ k1 ∧ b = entry.map key_to_char := by
  by_cases hlt : keys.length < 6
  · have := read_code_starved 6 0 buf keys hlt
    rw [h] at this
    cases this
  · have hlen : (keys.take 6).length = 6 := by
      rw [List.length_take]
      omega
    have hsplit : keys = keys.take 6 ++ keys.drop 6 := (List.take_append_drop 6 keys).symm
    have h2 := read_code_entry buf (keys.take 6) (keys.drop 6) hbuf hlen
    rw [← hsplit, h] at h2
    have hb : b = (keys.take 6).map key_to_char := congrArg Prod.fst h2
    have hk : some k1 = some (keys.drop 6) := congrArg Prod.snd h2
    cases hk
    exact ⟨keys.take 6, hlen, hsplit, hb⟩

theorem password_check_saved_password (s : State) (keys : List Nat) :
    (password_check s keys).state.saved_password = s.saved_password := by
  unfold password_check
  split
  · rfl
  · simp only []
    split_ifs <;> rfl

theorem new_password_saved_password (s : State) (keys : List Nat)
    (hbuf : s.password_entry.length = 6) (htemp : s.password_temp.length = 6)
    (hsaved : s.saved_password.length = 6) :
    (new_password s keys).state.saved_password = s.saved_password ∨
    ∃ old new conf rest, keys = old ++ (new ++ (conf ++ rest)) ∧
      old.length = 6 ∧ new.length = 6 ∧ conf.length = 6 ∧
      old.map key_to_char = s.saved_password ∧
      conf.map key_to_char = new.map key_to_char ∧
      new_password s keys = Outcome.returned () (committed_state s new conf) rest := by
  rcases h1 : read_code 6 0 s.password_entry keys with ⟨b1, _ | k1⟩
  · left
    simp only [new_password, h1]
    rfl
  · obtain ⟨old, hold, rfl, rfl⟩ := read_code_some _ _ _ _ hbuf h1
    by_cases ho : old.map key_to_char = s.saved_password
    · have hold2 : (old.map key_to_char).length = 6 := by simpa using hold
      have h0 : ¬ all_equal (old.map key_to_char) s.saved_password 6 0 = 0 := by
        rw [(all_equal_six _ _ hold2 hsaved).2]
        exact fun h => h ho
      rcases h2 : read_code 6 0 s.password_temp k1 with ⟨b2, _ | k2⟩
      · left
        simp only [new_password, h1, h0, if_false, h2]
        rfl
      · obtain ⟨new, hnew, rfl, rfl⟩ := read_code_some _ _ _ _ htemp h2
        rcases h3 : read_code 6 0 (old.map key_to_char) k2 with ⟨b3, _ | k3⟩
        · left
          simp only [new_password, h1, h0, if_false, h2, h3]
          rfl
        · obtain ⟨conf, hconf, rfl, rfl⟩ := read_code_some _ _ _ _ hold2 h3
          by_cases hc : conf.map key_to_char = new.map key_to_char
          · right
            exact ⟨old, new, conf, k3, rfl, hold, hnew, hconf, ho, hc,
              new_password_commit s old new conf k3 hbuf htemp hold hnew hconf ho hc⟩
          · left
            rw [new_password_mismatch s old new conf k3 hbuf htemp hold hnew hconf ho hc]
            rfl
    · left
      rw [new_password_old_wrong s old k1 hbuf hsaved hold ho]
      rfl

/-! ## The routines on arbitrary key input -/

theorem read_code_length (n i : Nat) (buf : List Char) (keys : List Nat) :
    (read_code n i buf keys).1.length = buf.length := by
  induction n generalizing i buf keys with
  | zero => rfl
  | succ n ih =>
    cases keys with
    | nil => rfl
    | cons k keys =>
      simp only [read_code]
      rw [ih, List.length_set]

theorem read_code_keys (n i : Nat) (buf b : List Char) (keys k1 : List Nat)
    (h : read_code n i buf keys = (b, some k1)) : keys.length = k1.length + n := by
  induction n generalizing i buf keys with
  | zero =>
    simp only [read_code, Prod.mk.injEq, Option.some.injEq] at h
    rw [h.2]
    rfl
  | succ n ih =>
    cases keys with
    | nil => simp [read_code] at h
    | cons k keys =>
      simp only [read_code] at h
      have := ih _ _ _ h
      simp only [List.length_cons]
      omega

theorem read_code_append (n i : Nat) (buf b : List Char) (keys k1 more : List Nat)
    (h : read_code n i buf keys = (b, some k1)) :
    read_code n i buf (keys ++ more) = (b, some (k1 ++ more)) := by
  induction n generalizing i buf keys with
  | zero =>
    simp only [read_code, Prod.mk.injEq, Option.some.injEq] at h
    simp only [read_code, h.1, h.2]
  | succ n ih =>
    cases keys with
    | nil => simp [read_code] at h
    | cons k keys =>
      simp only [read_code] at h
      simp only [List.cons_append, read_code]
      exact ih _ _ _ h

theorem copy_code_length (src : List Char) (n i : Nat) (dst : List Char) :
    (copy_code src n i dst).length = dst.length := by
  induction n generalizing i dst with
  | zero => rfl
  | succ n ih =>
    simp only [copy_code]
    rw [ih, List.length_set]

theorem password_check_returned (s s1 : State) (keys k1 : List Nat) (r : Nat)
    (h : password_check s keys = Outcome.returned r s1 k1) :
    keys.length = k1.length + 6 ∧
    ((r = 1 ∧ s1.attempts = 0) ∨
     (r = 0 ∧ s1.attempts = (s.attempts + 1) % 256 ∧ s1.attempts < 3)) := by
  unfold password_check at h
  rcases hrc : read_code 6 0 s.password_entry keys with ⟨b, _ | k2⟩
  · rw [hrc] at h
    cases h
  · rw [hrc] at h
    have hk := read_code_keys _ _ _ _ _ _ hrc
    simp only [portc_attempts] at h
    by_cases h1 : count_matches b s.saved_password 6 0 0 = 6
    · rw [if_pos h1] at h
      cases h
      exact ⟨hk, Or.inl ⟨rfl, rfl⟩⟩
    · rw [if_neg h1] at h
      by_cases h2 : (s.attempts + 1) % 256 ≥ 3
      · rw [if_pos h2] at h
        cases h
      · rw [if_neg h2] at h
        cases h
        refine ⟨hk, Or.inr ⟨rfl, rfl, ?_⟩⟩
        show (s.attempts + 1) % 256 < 3
        omega

theorem password_check_locked (s s1 : State) (keys k1 : List Nat)
    (h : password_check s keys = Outcome.locked s1 k1) :
    keys.length = k1.length + 6 ∧ s1.attempts = (s.attempts + 1) % 256 ∧ 3 ≤ s1.attempts ∧
      (read_code 6 0 s.password_entry keys).1 ≠ s.saved_password := by
  unfold password_check at h
  rcases hrc : read_code 6 0 s.password_entry keys with ⟨b, _ | k2⟩
  · rw [hrc] at h
    cases h
  · rw [hrc] at h
    have hk := read_code_keys _ _ _ _ _ _ hrc
    simp only [portc_attempts] at h
    by_cases h1 : count_matches b s.saved_password 6 0 0 = 6
    · rw [if_pos h1] at h
      cases h
    · rw [if_neg h1] at h
      by_cases h2 : (s.attempts + 1) % 256 ≥ 3
      · rw [if_pos h2] at h
        cases h
        refine ⟨hk, rfl, h2, ?_⟩
        intro hb
        simp only at hb
        apply h1
        rw [hb]
        clear hb h1 hrc
        generalize s.saved_password = l
        have key : ∀ (n i m : Nat), count_matches l l n i m = m + n := by
          intro n
          induction n with
          | zero => intro i m; rfl
          | succ n ih =>
            intro i m
            simp only [count_matches, if_true]
            rw [ih]
            omega
        rw [key]
      · rw [if_neg h2] at h
        cases h

theorem password_check_wf (s : State) (keys : List Nat) (hs : s.wf) :
    (password_check s keys).state.wf := by
  obtain ⟨h1, h2, h3⟩ := hs
  have hl := read_code_length 6 0 s.password_entry keys
  unfold password_check
  rcases hrc : read_code 6 0 s.password_entry keys with ⟨b, _ | k2⟩
  · rw [hrc] at hl
    exact ⟨h1, hl.trans h2, h3⟩
  · rw [hrc] at hl
    simp only []
    split_ifs <;> exact ⟨h1, hl.trans h2, h3⟩

theorem password_check_append (s : State) (keys more : List Nat)
    (h : ∀ s1, password_check s keys ≠ Outcome.waiting s1) :
    password_check s (keys ++ more) = (password_check s keys).extend more := by
  unfold password_check at h ⊢
  rcases hrc : read_code 6 0 s.password_entry keys with ⟨b, _ | k2⟩
  · rw [hrc] at h
    exact absurd rfl (h _)
  · rw [read_code_append _ _ _ _ _ _ more hrc]
    simp only []
    split_ifs <;> rfl

theorem new_password_attempts (s : State) (keys : List Nat) :
    (new_password s keys).state.attempts = s.attempts := by
  unfold new_password
  rcases read_code 6 0 s.password_entry keys with ⟨b, _ | k2⟩
  · rfl
  · simp only []
    split_ifs
    · rfl
    · rcases read_code 6 0 s.password_temp k2 with ⟨b2, _ | k3⟩
      · rfl
      · simp only []
        rcases read_code 6 0 b k3 with ⟨b3, _ | k4⟩
        · rfl
        · simp only []
          split_ifs <;> rfl

theorem new_password_not_locked (s : State) (keys : List Nat) :
    (new_password s keys).is_locked = false := by
  unfold new_password
  rcases read_code 6 0 s.password_entry keys with ⟨b, _ | k2⟩
  · rfl
  · simp only []
    split_ifs
    · rfl
    · rcases read_code 6 0 s.password_temp k2 with ⟨b2, _ | k3⟩
      · rfl
      · simp only []
        rcases read_code 6 0 b k3 with ⟨b3, _ | k4⟩
        · rfl
        · simp only []
          split_ifs <;> rfl

theorem new_password_returned (s s1 : State) (keys k1 : List Nat)
    (h : new_password s keys = Outcome.returned () s1 k1) : k1.length + 6 ≤ keys.length := by
  unfold new_password at h
  rcases hrc : read_code 6 0 s.password_entry keys with ⟨b, _ | k2⟩
  · rw [hrc] at h
    cases h
  · rw [hrc] at h
    have hk := read_code_keys _ _ _ _ _ _ hrc
    simp only [] at h
    by_cases h0 : all_equal b s.saved_password 6 0 = 0
    · rw [if_pos h0] at h
      cases h
      omega
    · rw [if_neg h0] at h
      rcases hrc2 : read_code 6 0 s.password_temp k2 with ⟨b2, _ | k3⟩
      · rw [hrc2] at h
        cases h
      · rw [hrc2] at h
        have hk2 := read_code_keys _ _ _ _ _ _ hrc2
        simp only [] at h
        rcases hrc3 : read_code 6 0 b k3 with ⟨b3, _ | k4⟩
        · rw [hrc3] at h
          cases h
        · rw [hrc3] at h
          have hk3 := read_code_keys _ _ _ _ _ _ hrc3
          simp only [] at h
          by_cases h1 : all_equal b3 b2 6 0 ≠ 0
          · rw [if_pos h1] at h
            cases h
            omega
          · rw [if_neg h1] at h
            cases h
            omega

theorem new_password_append (s : State) (keys more : List Nat)
    (h : ∀ s1, new_password s keys ≠ Outcome.waiting s1) :
    new_password s (keys ++ more) = (new_password s keys).extend more := by
  unfold new_password at h ⊢
  rcases hrc : read_code 6 0 s.password_entry keys with ⟨b, _ | k2⟩
  · rw [hrc] at h
    exact absurd rfl (h _)
  · rw [hrc] at h
    rw [read_code_append _ _ _ _ _ _ more hrc]
    simp only [] at h ⊢
    by_cases h0 : all_equal b s.saved_password 6 0 = 0
    · simp only [if_pos h0]
      rfl
    · simp only [if_neg h0] at h ⊢
      rcases hrc2 : read_code 6 0 s.password_temp k2 with ⟨b2, _ | k3⟩
      · rw [hrc2] at h
        exact absurd rfl (h _)
      · rw [hrc2] at h
        rw [read_code_append _ _ _ _ _ _ more hrc2]
        simp only [] at h ⊢
        rcases hrc3 : read_code 6 0 b k3 with ⟨b3, _ | k4⟩
        · rw [hrc3] at h
          exact absurd rfl (h _)
        · rw [read_code_append _ _ _ _ _ _ more hrc3]
          simp only []
          split_ifs <;> rfl

theorem new_password_wf (s : State) (keys : List Nat) (hs : s.wf) :
    (new_password s keys).state.wf := by
  obtain ⟨h1, h2, h3⟩ := hs
  unfold new_password
  rcases hrc : read_code 6 0 s.password_entry keys with ⟨b, _ | k2⟩
  · have hl := read_code_length 6 0 s.password_entry keys
    rw [hrc] at hl
    exact ⟨h1, hl.trans h2, h3⟩
  · have hl := read_code_length 6 0 s.password_entry keys
    rw [hrc] at hl
    simp only []
    split_ifs
    · exact ⟨h1, hl.trans h2, h3⟩
    · rcases hrc2 : read_code 6 0 s.password_temp k2 with ⟨b2, _ | k3⟩
      · have hl2 := read_code_length 6 0 s.password_temp k2
        rw [hrc2] at hl2
        exact ⟨h1, hl.trans h2, hl2.trans h3⟩
      · have hl2 := read_code_length 6 0 s.password_temp k2
        rw [hrc2] at hl2
        simp only []
        rcases hrc3 : read_code 6 0 b k3 with ⟨b3, _ | k4⟩
        · have hl3 := read_code_length 6 0 b k3
          rw [hrc3] at hl3
          exact ⟨h1, hl3.trans (hl.trans h2), hl2.trans h3⟩
        · have hl3 := read_code_length 6 0 b k3
          rw [hrc3] at hl3
          simp only []
          split_ifs
          · exact ⟨(copy_code_length _ _ _ _).trans h1, hl3.trans (hl.trans h2), hl2.trans h3⟩
          · exact ⟨h1, hl3.trans (hl.trans h2), hl2.trans h3⟩

/-! ## The menu loop -/

theorem menu_step_star (s : State) (keys : List Nat) :
    menu_step s (10 :: keys) =
      match password_check s keys with
      | Outcome.returned r s1 k1 =>
        if r ≠ 0 then
          Outcome.returned ()
            { ((({ s1 with access_granted := true } : State).portc 1 true).portc 1 false)
                with attempts := 0 } k1
        else Outcome.returned () { s1 with access_granted := false } k1
      | Outcome.locked s1 k1 => Outcome.locked s1 k1
      | Outcome.waiting s1 => Outcome.waiting s1 := by
  simp only [menu_step, if_true]
  rcases password_check s keys with ⟨r, s1, k1⟩ | ⟨s1, k1⟩ | ⟨s1⟩
  · by_cases hr : r = 0
    · subst hr
      simp
    · simp [hr]
  · rfl
  · rfl

theorem menu_step_hash (s : State) (keys : List Nat) :
    menu_step s (11 :: keys) = new_password s keys := by
  simp [menu_step]

theorem menu_step_other (s : State) (k : Nat) (keys : List Nat) (h10 : k ≠ 10)
    (h11 : k ≠ 11) : menu_step s (k :: keys) = Outcome.returned () s keys := by
  simp [menu_step, h10, h11]

theorem menu_step_returned (s s1 : State) (keys k1 : List Nat)
    (h : menu_step s keys = Outcome.returned () s1 k1) :
    k1.length < keys.length ∧ (s.attempts < 3 → s1.attempts < 3) := by
  cases keys with
  | nil => cases h
  | cons k keys =>
    by_cases h10 : k = 10
    · subst h10
      rw [menu_step_star] at h
      rcases hpc : password_check s keys with ⟨r, s2, k2⟩ | ⟨s2, k2⟩ | ⟨s2⟩
      · rw [hpc] at h
        obtain ⟨hlen, hatt⟩ := password_check_returned s s2 keys k2 r hpc
        simp only [] at h
        by_cases hr : r ≠ 0
        · rw [if_pos hr] at h
          cases h
          refine ⟨by simp only [List.length_cons]; omega, fun _ => ?_⟩
          show 0 < 3
          omega
        · rw [if_neg hr] at h
          cases h
          refine ⟨by simp only [List.length_cons]; omega, fun _ => ?_⟩
          show s2.attempts < 3
          rcases hatt with ⟨_, h0⟩ | ⟨_, _, h3⟩
          · omega
          · exact h3
      · rw [hpc] at h
        cases h
      · rw [hpc] at h
        cases h
    · by_cases h11 : k = 11
      · subst h11
        rw [menu_step_hash] at h
        have hlen := new_password_returned s s1 keys k1 h
        have hatt := new_password_attempts s keys
        rw [h] at hatt
        refine ⟨by simp only [List.length_cons]; omega, fun h3 => ?_⟩
        have : s1.attempts = s.attempts := hatt
        omega
      · rw [menu_step_other s k keys h10 h11] at h
        cases h
        exact ⟨by simp, fun h3 => h3⟩

theorem menu_step_wf (s : State) (keys : List Nat) (hs : s.wf) : (menu_step s keys).state.wf := by
  cases keys with
  | nil => exact hs
  | cons k keys =>
    by_cases h10 : k = 10
    · subst h10
      rw [menu_step_star]
      have hwf := password_check_wf s keys hs
      rcases hpc : password_check s keys with ⟨r, s2, k2⟩ | ⟨s2, k2⟩ | ⟨s2⟩
      · rw [hpc] at hwf
        simp only []
        split_ifs <;> exact hwf
      · rw [hpc] at hwf
        exact hwf
      · rw [hpc] at hwf
        exact hwf
    · by_cases h11 : k = 11
      · subst h11
        rw [menu_step_hash]
        exact new_password_wf s keys hs
      · rw [menu_step_other s k keys h10 h11]
        exact hs

theorem menu_step_append (s : State) (keys more : List Nat)
    (h : ∀ s1, menu_step s keys ≠ Outcome.waiting s1) :
    menu_step s (keys ++ more) = (menu_step s keys).extend more := by
  cases keys with
  | nil => exact absurd rfl (h s)
  | cons k keys =>
    rw [List.cons_append]
    by_cases h10 : k = 10
    · subst h10
      rw [menu_step_star] at h ⊢
      rw [menu_step_star]
      have hpc : ∀ s1, password_check s keys ≠ Outcome.waiting s1 := by
        intro s1 hw
        rw [hw] at h
        exact h s1 rfl
      rw [password_check_append s keys more hpc]
      rcases password_check s keys with ⟨r, s2, k2⟩ | ⟨s2, k2⟩ | ⟨s2⟩
      · simp only [Outcome.extend]
        split_ifs <;> rfl
      · rfl
      · rfl
    · by_cases h11 : k = 11
      · subst h11
        rw [menu_step_hash] at h ⊢
        rw [menu_step_hash]
        exact new_password_append s keys more h
      · rw [menu_step_other s k _ h10 h11, menu_step_other s k _ h10 h11]
        rfl

theorem main_loop_fuel (f1 f2 : Nat) (s : State) (keys : List Nat)
    (h1 : keys.length < f1) (h2 : keys.length < f2) :
    main_loop f1 s keys = main_loop f2 s keys := by
  induction f1 generalizing f2 s keys with
  | zero => omega
  | succ f1 ih =>
    cases f2 with
    | zero => omega
    | succ f2 =>
      simp only [main_loop]
      rcases hm : menu_step s keys with ⟨_, s1, k1⟩ | ⟨s1, k1⟩ | ⟨s1⟩
      · have hlt := (menu_step_returned s s1 keys k1 hm).1
        exact ih f2 s1 k1 (by omega) (by omega)
      · rfl
      · rfl

theorem main_loop_append (f : Nat) (s s1 : State) (keys k1 more : List Nat)
    (h : main_loop f s keys = Outcome.locked s1 k1) :
    main_loop f s (keys ++ more) = Outcome.locked s1 (k1 ++ more) := by
  induction f generalizing s keys with
  | zero => cases h
  | succ f ih =>
    simp only [main_loop] at h ⊢
    rcases hm : menu_step s keys with ⟨_, s2, k2⟩ | ⟨s2, k2⟩ | ⟨s2⟩
    · rw [hm] at h
      rw [menu_step_append s keys more (by rw [hm]; intro s3 h3; cases h3), hm]
      exact ih _ _ h
    · rw [hm] at h
      rw [menu_step_append s keys more (by rw [hm]; intro s3 h3; cases h3), hm]
      cases h
      rfl
    · rw [hm] at h
      cases h

theorem main_loop_locked_fuel (f d : Nat) (s s1 : State) (keys k1 : List Nat)
    (h : main_loop f s keys = Outcome.locked s1 k1) :
    main_loop (f + d) s keys = Outcome.locked s1 k1 := by
  induction f generalizing s keys with
  | zero => cases h
  | succ f ih =>
    rw [Nat.add_right_comm]
    simp only [main_loop] at h ⊢
    rcases hm : menu_step s keys with ⟨_, s2, k2⟩ | ⟨s2, k2⟩ | ⟨s2⟩
    · rw [hm] at h
      exact ih _ _ h
    · rw [hm] at h
      exact h
    · rw [hm] at h
      cases h

theorem menu_reachable_wf (s : State) (h : MenuReachable s) : s.wf := by
  induction h with
  | boot eeprom h => exact ⟨h, rfl, rfl⟩
  | @step s0 s1 keys keys1 _ hstep ih =>
    have := menu_step_wf s0 keys ih
    rw [hstep] at this
    exact this

theorem menu_reachable_attempts (s : State) (h : MenuReachable s) : s.attempts < 3 := by
  induction h with
  | boot eeprom h => exact Nat.zero_lt_succ 2
  | step _ hstep ih => exact (menu_step_returned _ _ _ _ hstep).2 ih

theorem menu_step_star_is_locked (s : State) (keys : List Nat) :
    (menu_step s (10 :: keys)).is_locked = (password_check s keys).is_locked := by
  rw [menu_step_star]
  rcases password_check s keys with ⟨r, s2, k2⟩ | ⟨s2, k2⟩ | ⟨s2⟩
  · simp only []
    split_ifs <;> rfl
  · rfl
  · rfl

theorem menu_step_denied (s : State) (entry rest : List Nat) (hs : s.wf)
    (hlen : entry.length = 6) (hne : entry.map key_to_char ≠ s.saved_password)
    (hatt : s.attempts < 2) :
    menu_step s (10 :: (entry ++ rest)) =
      Outcome.returned () { denied_state s entry with access_granted := false } rest := by
  rw [menu_step_star, password_check_mismatch s entry rest hs.2.1 hlen hs.1 hne,
    if_neg (by omega)]
  rfl

theorem menu_step_lockout (s : State) (entry rest : List Nat) (hs : s.wf)
    (hlen : entry.length = 6) (hne : entry.map key_to_char ≠ s.saved_password)
    (hatt : s.attempts = 2) :
    menu_step s (10 :: (entry ++ rest)) = Outcome.locked (lockout_state s entry) rest := by
  rw [menu_step_star, password_check_mismatch s entry rest hs.2.1 hlen hs.1 hne,
    if_pos (by omega)]

theorem main_absorbing (eeprom : List Char) (keys r1 more : List Nat) (s1 : State)
    (h : main eeprom keys = Outcome.locked s1 r1) :
    main eeprom (keys ++ more) = Outcome.locked s1 (r1 ++ more) := by
  unfold main at h ⊢
  have h2 := main_loop_append _ _ _ _ _ more h
  have h3 := main_loop_locked_fuel _ more.length _ _ _ _ h2
  rw [List.length_append, Nat.add_right_comm]
  exact h3

/-! ## Key codes returned by `keypad` -/

theorem key_map_lt (r c : Nat) (hr : r < 4) (hc : c < 3) : key_map r c < 12 := by
  interval_cases r <;> interval_cases c <;> decide

theorem read_col_range (pins rest : List Nat) (col : Nat)
    (h : read_col pins = some (col, rest)) : col < 3 ∨ col = 0xFF := by
  unfold read_col at h
  split at h
  · cases h
  · split_ifs at h
    · cases h
      exact Or.inl (by decide)
    · split at h
      · cases h
      · split_ifs at h
        · cases h
          exact Or.inl (by decide)
        · split at h
          · cases h
          · split_ifs at h
            · cases h
              exact Or.inl (by decide)
            · cases h
              exact Or.inr rfl

theorem scan_rows_key (n row portd : Nat) (pins : List Nat) (k p1 : Nat) (rest : List Nat)
    (hrow : row + n ≤ 4) (h : scan_rows n row portd pins = Scan.key k p1 rest) :
    ∃ r c, r < 4 ∧ c < 3 ∧ k = key_map r c := by
  induction n generalizing row portd pins with
  | zero => cases h
  | succ n ih =>
    simp only [scan_rows] at h
    rcases hcol : read_col pins with _ | ⟨col, pins1⟩
    · rw [hcol] at h
      cases h
    · rw [hcol] at h
      simp only [] at h
      by_cases hff : col ≠ 0xFF
      · rw [if_pos hff] at h
        rcases hre : recheck row pins1 with _ | ⟨_ | _, pins2⟩
        · rw [hre] at h
          cases h
        · rw [hre] at h
          exact ih (row + 1) _ _ (by omega) h
        · rw [hre] at h
          simp only [] at h
          rcases hw : wait_release pins2 with _ | pins3
          · rw [hw] at h
            cases h
          · rw [hw] at h
            cases h
            refine ⟨row, col, by omega, ?_, rfl⟩
            rcases read_col_range pins pins1 col hcol with hlt | hbad
            · exact hlt
            · exact absurd hbad hff
      · rw [if_neg hff] at h
        exact ih (row + 1) _ _ (by omega) h

theorem keypad_loop_key (fuel portd : Nat) (pins : List Nat) (k p1 : Nat) (rest : List Nat)
    (h : keypad_loop fuel portd pins = some (k, p1, rest)) :
    ∃ r c, r < 4 ∧ c < 3 ∧ k = key_map r c := by
  induction fuel generalizing portd pins with
  | zero => cases h
  | succ fuel ih =>
    simp only [keypad_loop] at h
    rcases hs : scan_rows 4 0 portd pins with ⟨k2, p2, pins2⟩ | ⟨p2, pins2⟩ | _
    · rw [hs] at h
      cases h
      exact scan_rows_key 4 0 portd pins k p1 rest (by decide) hs
    · rw [hs] at h
      exact ih _ _ h
    · rw [hs] at h
      cases h

theorem keypad_key_iff (k : Nat) : keypad_key k ↔ k < 12 := by
  constructor
  · rintro ⟨portd, pins, p1, rest, h⟩
    obtain ⟨r, c, hr, hc, rfl⟩ := keypad_loop_key _ _ _ _ _ _ h
    exact key_map_lt r c hr hc
  · intro hk
    interval_cases k
    · exact ⟨0x07, [7, 7, 7, 7, 7, 7, 7, 7, 7, 5, 5, 5, 5, 7], 0x3F, [], by decide⟩
    · exact ⟨0x07, [6, 6, 7], 0x77, [], by decide⟩
    · exact ⟨0x07, [5, 5, 5, 5, 7], 0x77, [], by decide⟩
    · exact ⟨0x07, [3, 3, 3, 3, 3, 3, 7], 0x77, [], by decide⟩
    · exact ⟨0x07, [7, 7, 7, 6, 6, 7], 0x6F, [], by decide⟩
    · exact ⟨0x07, [7, 7, 7, 5, 5, 5, 5, 7], 0x6F, [], by decide⟩
    · exact ⟨0x07, [7, 7, 7, 3, 3, 3, 3, 3, 3, 7], 0x6F, [], by decide⟩
    · exact ⟨0x07, [7, 7, 7, 7, 7, 7, 6, 6, 7], 0x5F, [], by decide⟩
    · exact ⟨0x07, [7, 7, 7, 7, 7, 7, 5, 5, 5, 5, 7], 0x5F, [], by decide⟩
    · exact ⟨0x07, [7, 7, 7, 7, 7, 7, 3, 3, 3, 3, 3, 3, 7], 0x5F, [], by decide⟩
    · exact ⟨0x07, [7, 7, 7, 7, 7, 7, 7, 7, 7, 6, 6, 7], 0x3F, [], by decide⟩
    · exact ⟨0x07, [7, 7, 7, 7, 7, 7, 7, 7, 7, 3, 3, 3, 3, 3, 3, 7], 0x3F, [], by decide⟩

theorem key_to_char_alphabet (k : Nat) (hk : k < 12) : key_to_char k ∈ alphabet := by
  interval_cases k <;> decide

theorem map_key_to_char_valid (entry : List Nat) (hlen : entry.length = 6)
    (hkeys : ∀ k ∈ entry, keypad_key k) : valid_credential (entry.map key_to_char) := by
  refine ⟨by simpa using hlen, ?_⟩
  intro c hc
  obtain ⟨k, hk, rfl⟩ := List.mem_map.1 hc
  exact key_to_char_alphabet k ((keypad_key_iff k).1 (hkeys k hk))

/-! ## Passes of the scanner and pin samples -/

theorem read_col_length (pins rest : List Nat) (col : Nat)
    (h : read_col pins = some (col, rest)) : rest.length < pins.length := by
  match pins with
  | [] => cases h
  | [p] =>
    simp only [read_col] at h
    split_ifs at h
    · cases h
      simp
  | [p, q] =>
    simp only [read_col] at h
    split_ifs at h <;> cases h <;> simp
  | p :: q :: r :: pins =>
    simp only [read_col] at h
    split_ifs at h <;> cases h <;> simp <;> omega

theorem any_col_low_length (pins rest : List Nat) (b : Bool)
    (h : any_col_low pins = some (b, rest)) : rest.length < pins.length := by
  match pins with
  | [] => cases h
  | [p] =>
    simp only [any_col_low] at h
    split_ifs at h
    · cases h
      simp
  | [p, q] =>
    simp only [any_col_low] at h
    split_ifs at h <;> cases h <;> simp
  | p :: q :: r :: pins =>
    simp only [any_col_low] at h
    split_ifs at h <;> cases h <;> (simp; try omega)

theorem recheck_row_length (row r : Nat) (pins rest : List Nat) (b : Bool)
    (h : recheck_row row r pins = some (b, rest)) : rest.length ≤ pins.length := by
  unfold recheck_row at h
  split_ifs at h
  · exact Nat.le_of_lt (any_col_low_length pins rest b h)
  · cases h
    exact Nat.le_refl _

theorem recheck_length (row : Nat) (pins rest : List Nat) (b : Bool)
    (h : recheck row pins = some (b, rest)) : rest.length ≤ pins.length := by
  unfold recheck at h
  rcases h0 : recheck_row row 0 pins with _ | ⟨_ | _, p0⟩
  · rw [h0] at h
    cases h
  · rw [h0] at h
    have l0 := recheck_row_length _ _ _ _ _ h0
    simp only [] at h
    rcases h1 : recheck_row row 1 p0 with _ | ⟨_ | _, p1⟩
    · rw [h1] at h
      cases h
    · rw [h1] at h
      have l1 := recheck_row_length _ _ _ _ _ h1
      simp only [] at h
      rcases h2 : recheck_row row 2 p1 with _ | ⟨_ | _, p2⟩
      · rw [h2] at h
        cases h
      · rw [h2] at h
        have l2 := recheck_row_length _ _ _ _ _ h2
        simp only [] at h
        have l3 := recheck_row_length _ _ _ _ _ h
        omega
      · rw [h2] at h
        have l2 := recheck_row_length _ _ _ _ _ h2
        cases h
        omega
    · rw [h1] at h
      have l1 := recheck_row_length _ _ _ _ _ h1
      cases h
      omega
  · rw [h0] at h
    have l0 := recheck_row_length _ _ _ _ _ h0
    cases h
    exact l0

theorem scan_rows_none_length (n row portd : Nat) (pins : List Nat) (p1 : Nat)
    (rest : List Nat) (h : scan_rows n row portd pins = Scan.none p1 rest) :
    rest.length + n ≤ pins.length := by
  induction n generalizing row portd pins with
  | zero =>
    cases h
    exact Nat.le_refl _
  | succ n ih =>
    simp only [scan_rows] at h
    rcases hcol : read_col pins with _ | ⟨col, pins1⟩
    · rw [hcol] at h
      cases h
    · rw [hcol] at h
      have hl := read_col_length _ _ _ hcol
      simp only [] at h
      by_cases hff : col ≠ 0xFF
      · rw [if_pos hff] at h
        rcases hre : recheck row pins1 with _ | ⟨_ | _, pins2⟩
        · rw [hre] at h
          cases h
        · rw [hre] at h
          have hl2 := recheck_length _ _ _ _ hre
          have := ih _ _ _ h
          omega
        · rw [hre] at h
          simp only [] at h
          rcases hw : wait_release pins2 with _ | pins3
          · rw [hw] at h
            cases h
          · rw [hw] at h
            cases h
      · rw [if_neg hff] at h
        have := ih _ _ _ h
        omega

theorem keypad_loop_fuel (f1 f2 portd : Nat) (pins : List Nat)
    (h1 : pins.length < f1) (h2 : pins.length < f2) :
    keypad_loop f1 portd pins = keypad_loop f2 portd pins := by
  induction f1 generalizing f2 portd pins with
  | zero => omega
  | succ f1 ih =>
    cases f2 with
    | zero => omega
    | succ f2 =>
      simp only [keypad_loop]
      rcases hs : scan_rows 4 0 portd pins with ⟨k2, p2, pins2⟩ | ⟨p2, pins2⟩ | _
      · rfl
      · have hl := scan_rows_none_length 4 0 portd pins p2 pins2 hs
        exact ih f2 p2 pins2 (by omega) (by omega)
      · rfl

/-! ## Failed verifications since the last success -/

theorem failed_since_spec (s : State) (n : Nat) (h : FailedSince s n) :
    MenuReachable s ∧ s.attempts = n := by
  induction h with
  | boot eeprom h => exact ⟨MenuReachable.boot eeprom h, rfl⟩
  | @granted s0 s1 n entry rest _ hlen heq hstep ih =>
    refine ⟨MenuReachable.step ih.1 hstep, ?_⟩
    have hwf := menu_reachable_wf s0 ih.1
    rw [menu_step_star, password_check_match s0 entry rest hwf.2.1 hlen heq] at hstep
    simp only [] at hstep
    rw [if_pos (by decide)] at hstep
    cases hstep
    rfl
  | @denied s0 s1 n entry rest _ hlen hne hstep ih =>
    refine ⟨MenuReachable.step ih.1 hstep, ?_⟩
    have hwf := menu_reachable_wf s0 ih.1
    have hatt := menu_reachable_attempts s0 ih.1
    rw [menu_step_star, password_check_mismatch s0 entry rest hwf.2.1 hlen hwf.1 hne] at hstep
    by_cases h3 : (s0.attempts + 1) % 256 ≥ 3
    · rw [if_pos h3] at hstep
      cases hstep
    · rw [if_neg h3] at hstep
      simp only [] at hstep
      rw [if_neg (by decide)] at hstep
      cases hstep
      show (s0.attempts + 1) % 256 = n + 1
      omega
  | @other s0 s1 n k keys rest _ h10 hstep ih =>
    refine ⟨MenuReachable.step ih.1 hstep, ?_⟩
    by_cases h11 : k = 11
    · subst h11
      rw [menu_step_hash] at hstep
      have := new_password_attempts s0 keys
      rw [hstep] at this
      exact this.trans ih.2
    · rw [menu_step_other s0 k keys h10 h11] at hstep
      cases hstep
      exact ih.2

/-! ## Unread key events -/

theorem read_code_drop (n i : Nat) (buf b : List Char) (keys k1 : List Nat)
    (h : read_code n i buf keys = (b, some k1)) : k1 = keys.drop n := by
  induction n generalizing i buf keys with
  | zero =>
    simp only [read_code, Prod.mk.injEq, Option.some.injEq] at h
    rw [← h.2]
    rfl
  | succ n ih =>
    cases keys with
    | nil => simp [read_code] at h
    | cons k keys =>
      simp only [read_code] at h
      rw [ih _ _ _ h]
      rfl

theorem password_check_unread (s : State) (keys : List Nat) :
    ∀ k ∈ (password_check s keys).unread, k ∈ keys := by
  unfold password_check
  rcases hrc : read_code 6 0 s.password_entry keys with ⟨b, _ | k2⟩
  · intro k hk
    cases hk
  · have hd := read_code_drop _ _ _ _ _ _ hrc
    subst hd
    simp only []
    split_ifs <;> exact fun k hk => List.mem_of_mem_drop hk

theorem new_password_unread (s : State) (keys : List Nat) :
    ∀ k ∈ (new_password s keys).unread, k ∈ keys := by
  unfold new_password
  rcases hrc : read_code 6 0 s.password_entry keys with ⟨b, _ | k2⟩
  · intro k hk
    cases hk
  · have hd := read_code_drop _ _ _ _ _ _ hrc
    subst hd
    simp only []
    split_ifs
    · exact fun k hk => List.mem_of_mem_drop hk
    · rcases hrc2 : read_code 6 0 s.password_temp (List.drop 6 keys) with ⟨b2, _ | k3⟩
      · intro k hk
        cases hk
      · have hd2 := read_code_drop _ _ _ _ _ _ hrc2
        subst hd2
        simp only []
        rcases hrc3 : read_code 6 0 b (List.drop 6 (List.drop 6 keys)) with ⟨b3, _ | k4⟩
        · intro k hk
          cases hk
        · have hd3 := read_code_drop _ _ _ _ _ _ hrc3
          subst hd3
          simp only []
          split_ifs <;>
            exact fun k hk =>
              List.mem_of_mem_drop (List.mem_of_mem_drop (List.mem_of_mem_drop hk))

theorem menu_step_unread (s : State) (keys : List Nat) :
    ∀ k ∈ (menu_step s keys).unread, k ∈ keys := by
  cases keys with
  | nil =>
    intro k hk
    cases hk
  | cons k0 keys =>
    intro k hk
    refine List.mem_cons_of_mem _ ?_
    by_cases h10 : k0 = 10
    · subst h10
      rw [menu_step_star] at hk
      have hpc := password_check_unread s keys
      rcases hp : password_check s keys with ⟨r, s2, k2⟩ | ⟨s2, k2⟩ | ⟨s2⟩
      · rw [hp] at hk hpc
        simp only [] at hk
        split_ifs at hk <;> exact hpc k hk
      · rw [hp] at hk hpc
        exact hpc k hk
      · rw [hp] at hk
        cases hk
    · by_cases h11 : k0 = 11
      · subst h11
        rw [menu_step_hash] at hk
        exact new_password_unread s keys k hk
      · rw [menu_step_other s k0 keys h10 h11] at hk
        exact hk

/-! ## The credential invariant -/

theorem new_password_valid (s : State) (keys : List Nat) (hs : s.wf)
    (hv : valid_credential s.saved_password) (hkeys : ∀ k ∈ keys, keypad_key k) :
    valid_credential (new_password s keys).state.saved_password := by
  rcases new_password_saved_password s keys hs.2.1 hs.2.2 hs.1 with h | h
  · rw [h]
    exact hv
  · obtain ⟨old, new, conf, rest, hk, _, hnew, _, _, _, hnp⟩ := h
    rw [hnp]
    refine map_key_to_char_valid new hnew ?_
    intro k hkn
    apply hkeys
    rw [hk]
    exact List.mem_append_right _ (List.mem_append_left _ hkn)

theorem menu_step_valid (s : State) (keys : List Nat) (hs : s.wf)
    (hv : valid_credential s.saved_password) (hkeys : ∀ k ∈ keys, keypad_key k) :
    valid_credential (menu_step s keys).state.saved_password := by
  cases keys with
  | nil => exact hv
  | cons k0 keys =>
    have hkeys2 : ∀ k ∈ keys, keypad_key k := fun k hk => hkeys k (List.mem_cons_of_mem _ hk)
    by_cases h10 : k0 = 10
    · subst h10
      rw [menu_step_star]
      have hpc := password_check_saved_password s keys
      rcases hp : password_check s keys with ⟨r, s2, k2⟩ | ⟨s2, k2⟩ | ⟨s2⟩
      · rw [hp] at hpc
        have h2 : s2.saved_password = s.saved_password := hpc
        simp only []
        split_ifs
        · show valid_credential s2.saved_password
          rw [h2]
          exact hv
        · show valid_credential s2.saved_password
          rw [h2]
          exact hv
      · rw [hp] at hpc
        have h2 : s2.saved_password = s.saved_password := hpc
        show valid_credential s2.saved_password
        rw [h2]
        exact hv
      · rw [hp] at hpc
        have h2 : s2.saved_password = s.saved_password := hpc
        show valid_credential s2.saved_password
        rw [h2]
        exact hv
    · by_cases h11 : k0 = 11
      · subst h11
        rw [menu_step_hash]
        exact new_password_valid s keys hs hv hkeys2
      · rw [menu_step_other s k0 keys h10 h11]
        exact hv

theorem main_loop_valid (fuel : Nat) (s : State) (keys : List Nat) (hs : s.wf)
    (hv : valid_credential s.saved_password) (hkeys : ∀ k ∈ keys, keypad_key k) :
    valid_credential (main_loop fuel s keys).state.saved_password := by
  induction fuel generalizing s keys with
  | zero => exact hv
  | succ fuel ih =>
    simp only [main_loop]
    have hwf := menu_step_wf s keys hs
    have hval := menu_step_valid s keys hs hv hkeys
    have hun := menu_step_unread s keys
    rcases hm : menu_step s keys with ⟨_, s1, k1⟩ | ⟨s1, k1⟩ | ⟨s1⟩
    · rw [hm] at hwf hval hun
      exact ih s1 k1 hwf hval (fun k hk => hkeys k (hun k hk))
    · rw [hm] at hval
      exact hval
    · rw [hm] at hval
      exact hval

/-! ## Samples read by the scanner -/

theorem and_low_bits (x m : Nat) (h : 7 &&& m = m) : x &&& m = (x % 8) &&& m := by
  have h7 : x % 8 = x &&& 7 := (Nat.and_pow_two_sub_one_eq_mod x 3).symm
  rw [h7, Nat.and_assoc, h]

theorem idle_iff (p : Nat) :
    p &&& 0x07 = 0x07 ↔ (p &&& 0x01 ≠ 0 ∧ p &&& 0x02 ≠ 0 ∧ p &&& 0x04 ≠ 0) := by
  rw [and_low_bits p 7 (by decide), and_low_bits p 1 (by decide), and_low_bits p 2 (by decide),
    and_low_bits p 4 (by decide)]
  have ht : p % 8 < 8 := Nat.mod_lt _ (by decide)
  generalize p % 8 = t at ht
  interval_cases t <;> decide

theorem recheck_eq (row : Nat) (hrow : row < 4) (pins : List Nat) :
    recheck row pins = any_col_low pins := by
  interval_cases row <;> simp [recheck, recheck_row] <;>
    (rcases any_col_low pins with _ | ⟨_ | _, _⟩ <;> simp)

theorem wait_release_spec (pins rest : List Nat) (h : wait_release pins = some rest) :
    ∃ held p, pins = held ++ p :: rest ∧ p &&& 0x07 = 0x07 ∧ ∀ q ∈ held, q &&& 0x07 ≠ 0x07 := by
  induction pins with
  | nil => cases h
  | cons a pins ih =>
    simp only [wait_release] at h
    by_cases ha : a &&& 0x07 ≠ 0x07
    · rw [if_pos ha] at h
      obtain ⟨held, p, hp, hidle, hheld⟩ := ih h
      refine ⟨a :: held, p, by rw [hp]; rfl, hidle, ?_⟩
      intro q hq
      rcases List.mem_cons.1 hq with rfl | hq
      · exact ha
      · exact hheld q hq
    · rw [if_neg ha] at h
      cases h
      exact ⟨[], a, rfl, not_not.1 ha, fun q hq => by cases hq⟩

theorem wait_release_held (held : List Nat) (p : Nat) (rest : List Nat)
    (hheld : ∀ q ∈ held, q &&& 0x07 ≠ 0x07) (hp : p &&& 0x07 = 0x07) :
    wait_release (held ++ p :: rest) = some rest := by
  induction held with
  | nil => simp [wait_release, hp]
  | cons a held ih =>
    have ha := hheld a (List.mem_cons_self _ _)
    simp only [List.cons_append, wait_release, if_pos ha]
    exact ih (fun q hq => hheld q (List.mem_cons_of_mem _ hq))

theorem read_col_suffix (pins rest : List Nat) (col : Nat)
    (h : read_col pins = some (col, rest)) : rest <:+ pins := by
  match pins with
  | [] => cases h
  | [p] =>
    simp only [read_col] at h
    split_ifs at h
    · cases h
      exact List.suffix_cons _ _
  | [p, q] =>
    simp only [read_col] at h
    split_ifs at h <;> cases h
    · exact List.suffix_cons _ _
    · exact ⟨[p, q], rfl⟩
  | p :: q :: r :: pins =>
    simp only [read_col] at h
    split_ifs at h <;> cases h
    · exact List.suffix_cons _ _
    · exact ⟨[p, q], rfl⟩
    · exact ⟨[p, q, r], rfl⟩
    · exact ⟨[p, q, r], rfl⟩

theorem any_col_low_suffix (pins rest : List Nat) (b : Bool)
    (h : any_col_low pins = some (b, rest)) : rest <:+ pins := by
  match pins with
  | [] => cases h
  | [p] =>
    simp only [any_col_low] at h
    split_ifs at h
    · cases h
      exact List.suffix_cons _ _
  | [p, q] =>
    simp only [any_col_low] at h
    split_ifs at h <;> cases h
    · exact List.suffix_cons _ _
    · exact ⟨[p, q], rfl⟩
  | p :: q :: r :: pins =>
    simp only [any_col_low] at h
    split_ifs at h <;> cases h
    · exact List.suffix_cons _ _
    · exact ⟨[p, q], rfl⟩
    · exact ⟨[p, q, r], rfl⟩

theorem scan_rows_suffix (n row portd : Nat) (pins : List Nat) (hrow : row + n ≤ 4) :
    (∀ k p1 rest, scan_rows n row portd pins = Scan.key k p1 rest →
      ∃ p, p &&& 0x07 = 0x07 ∧ (p :: rest) <:+ pins) ∧
    (∀ p1 rest, scan_rows n row portd pins = Scan.none p1 rest → rest <:+ pins) := by
  induction n generalizing row portd pins with
  | zero =>
    refine ⟨(fun k p1 rest h => by cases h), fun p1 rest h => ?_⟩
    cases h
    exact List.suffix_refl _
  | succ n ih =>
    simp only [scan_rows]
    rcases hcol : read_col pins with _ | ⟨col, pins1⟩
    · exact ⟨(fun k p1 rest h => by cases h), (fun p1 rest h => by cases h)⟩
    · have s1 := read_col_suffix _ _ _ hcol
      simp only []
      by_cases hff : col ≠ 0xFF
      · rw [if_pos hff, recheck_eq row (by omega)]
        rcases hre : any_col_low pins1 with _ | ⟨_ | _, pins2⟩
        · exact ⟨(fun k p1 rest h => by cases h), (fun p1 rest h => by cases h)⟩
        · have s2 := any_col_low_suffix _ _ _ hre
          obtain ⟨ihk, ihn⟩ := ih (row + 1) (row_select portd row) pins2 (by omega)
          refine ⟨fun k p1 rest h => ?_, fun p1 rest h => ?_⟩
          · obtain ⟨p, hp, hs⟩ := ihk k p1 rest h
            exact ⟨p, hp, hs.trans (s2.trans s1)⟩
          · exact (ihn p1 rest h).trans (s2.trans s1)
        · have s2 := any_col_low_suffix _ _ _ hre
          simp only []
          rcases hw : wait_release pins2 with _ | pins3
          · exact ⟨(fun k p1 rest h => by cases h), (fun p1 rest h => by cases h)⟩
          · refine ⟨fun k p1 rest h => ?_, (fun p1 rest h => by cases h)⟩
            cases h
            obtain ⟨held, p, hp, hidle, _⟩ := wait_release_spec _ _ hw
            refine ⟨p, hidle, ?_⟩
            have : (p :: pins3) <:+ pins2 := ⟨held, hp.symm⟩
            exact this.trans (s2.trans s1)
      · rw [if_neg hff]
        obtain ⟨ihk, ihn⟩ := ih (row + 1) (row_select portd row) pins1 (by omega)
        refine ⟨fun k p1 rest h => ?_, fun p1 rest h => ?_⟩
        · obtain ⟨p, hp, hs⟩ := ihk k p1 rest h
          exact ⟨p, hp, hs.trans s1⟩
        · exact (ihn p1 rest h).trans s1

theorem keypad_loop_release (fuel portd : Nat) (pins : List Nat) (k p1 : Nat) (rest : List Nat)
    (h : keypad_loop fuel portd pins = some (k, p1, rest)) :
    ∃ p, p &&& 0x07 = 0x07 ∧ (p :: rest) <:+ pins := by
  induction fuel generalizing portd pins with
  | zero => cases h
  | succ fuel ih =>
    simp only [keypad_loop] at h
    obtain ⟨hk, hn⟩ := scan_rows_suffix 4 0 portd pins (by decide)
    rcases hs : scan_rows 4 0 portd pins with ⟨k2, p2, pins2⟩ | ⟨p2, pins2⟩ | _
    · rw [hs] at h
      cases h
      exact hk _ _ _ hs
    · rw [hs] at h
      obtain ⟨p, hp, hsuf⟩ := ih _ _ h
      exact ⟨p, hp, hsuf.trans (hn _ _ hs)⟩
    · rw [hs] at h
      cases h


theorem read_col_held (s c : Nat) (rest : List Nat) (hc : c < 3)
    (hlow : s &&& (1 <<< c) = 0) (hlowest : ∀ j < c, s &&& (1 <<< j) ≠ 0) :
    read_col (List.replicate (c + 1) s ++ rest) = some (c, rest) := by
  interval_cases c
  · have h0 : s &&& 1 = 0 := hlow
    simp only [List.replicate, List.cons_append, List.nil_append, read_col, if_pos h0]
  · have h0 : ¬ s &&& 1 = 0 := hlowest 0 (by decide)
    have h1 : s &&& 2 = 0 := hlow
    simp only [List.replicate, List.cons_append, List.nil_append, read_col, if_neg h0, if_pos h1]
  · have h0 : ¬ s &&& 1 = 0 := hlowest 0 (by decide)
    have h1 : ¬ s &&& 2 = 0 := hlowest 1 (by decide)
    have h2 : s &&& 4 = 0 := hlow
    simp only [List.replicate, List.cons_append, List.nil_append, read_col, if_neg h0, if_neg h1,
      if_pos h2]

theorem any_col_low_held (s c : Nat) (rest : List Nat) (hc : c < 3)
    (hlow : s &&& (1 <<< c) = 0) (hlowest : ∀ j < c, s &&& (1 <<< j) ≠ 0) :
    any_col_low (List.replicate (c + 1) s ++ rest) = some (true, rest) := by
  interval_cases c
  · have h0 : s &&& 1 = 0 := hlow
    simp only [List.replicate, List.cons_append, List.nil_append, any_col_low, if_pos h0]
  · have h0 : ¬ s &&& 1 = 0 := hlowest 0 (by decide)
    have h1 : s &&& 2 = 0 := hlow
    simp only [List.replicate, List.cons_append, List.nil_append, any_col_low, if_neg h0,
      if_pos h1]
  · have h0 : ¬ s &&& 1 = 0 := hlowest 0 (by decide)
    have h1 : ¬ s &&& 2 = 0 := hlowest 1 (by decide)
    have h2 : s &&& 4 = 0 := hlow
    simp only [List.replicate, List.cons_append, List.nil_append, any_col_low, if_neg h0,
      if_neg h1, h2, decide_True]

theorem read_col_idle (t1 t2 t3 : Nat) (rest : List Nat) (h1 : t1 &&& 0x01 ≠ 0)
    (h2 : t2 &&& 0x02 ≠ 0) (h3 : t3 &&& 0x04 ≠ 0) :
    read_col (t1 :: t2 :: t3 :: rest) = some (0xFF, rest) := by
  simp only [read_col, if_neg h1, if_neg h2, if_neg h3]

theorem any_col_low_idle (t1 t2 t3 : Nat) (rest : List Nat) (h1 : t1 &&& 0x01 ≠ 0)
    (h2 : t2 &&& 0x02 ≠ 0) (h3 : t3 &&& 0x04 ≠ 0) :
    any_col_low (t1 :: t2 :: t3 :: rest) = some (false, rest) := by
  simp only [any_col_low, if_neg h1, if_neg h2, decide_eq_false h3]

theorem scan_rows_accept (n row portd col : Nat) (pins pins1 pins2 pins3 : List Nat)
    (hrow : row < 4) (hfirst : read_col pins = some (col, pins1)) (hcol : col ≠ 0xFF)
    (hre : any_col_low pins1 = some (true, pins2)) (hrel : wait_release pins2 = some pins3) :
    scan_rows (n + 1) row portd pins = Scan.key (key_map row col) (row_select portd row) pins3 := by
  simp only [scan_rows, hfirst, if_pos hcol, recheck_eq row hrow, hre, hrel]

theorem scan_rows_reject (n row portd col : Nat) (pins pins1 pins2 : List Nat)
    (hrow : row < 4) (hfirst : read_col pins = some (col, pins1)) (hcol : col ≠ 0xFF)
    (hre : any_col_low pins1 = some (false, pins2)) :
    scan_rows (n + 1) row portd pins = scan_rows n (row + 1) (row_select portd row) pins2 := by
  simp only [scan_rows, hfirst, if_pos hcol, recheck_eq row hrow, hre]

theorem scan_rows_no_column (n row portd : Nat) (pins pins1 : List Nat)
    (hfirst : read_col pins = some (0xFF, pins1)) :
    scan_rows (n + 1) row portd pins = scan_rows n (row + 1) (row_select portd row) pins1 := by
  simp only [scan_rows, hfirst]
  rw [if_neg (by decide)]

theorem scan_rows_skip_idle (r n row portd : Nat) (tail : List Nat) :
    ∃ p1, scan_rows (r + n) row portd (List.replicate (3 * r) 7 ++ tail)
      = scan_rows n (row + r) p1 tail := by
  induction r generalizing row portd with
  | zero => exact ⟨portd, by simp⟩
  | succ r ih =>
    obtain ⟨p1, h⟩ := ih (row + 1) (row_select portd row)
    refine ⟨p1, ?_⟩
    have hl : List.replicate (3 * (r + 1)) 7 ++ tail
        = 7 :: 7 :: 7 :: (List.replicate (3 * r) 7 ++ tail) := by
      rw [show 3 * (r + 1) = 3 * r + 1 + 1 + 1 by ring]
      rfl
    rw [hl, show r + 1 + n = (r + n) + 1 by ring,
      scan_rows_no_column _ _ _ _ _ (read_col_idle 7 7 7 _ (by decide) (by decide) (by decide)),
      h, show row + 1 + r = row + (r + 1) by ring]

theorem keypad_press (portd r c s p : Nat) (held rest : List Nat) (hr : r < 4) (hc : c < 3)
    (hlow : s &&& (1 <<< c) = 0) (hlowest : ∀ j < c, s &&& (1 <<< j) ≠ 0)
    (hheld : ∀ q ∈ held, q &&& 0x07 ≠ 0x07) (hp : p &&& 0x07 = 0x07) :
    ∃ p1, keypad portd (List.replicate (3 * r) 7 ++ (List.replicate (c + 1) s ++
      (List.replicate (c + 1) s ++ (held ++ p :: rest)))) = some (key_map r c, p1, rest) := by
  unfold keypad
  generalize (portd ||| ((1 <<< 3) ||| (1 <<< 4) ||| (1 <<< 5) ||| (1 <<< 6))) % 256 = pd
  obtain ⟨n, hn⟩ : ∃ n, 4 = r + (n + 1) := ⟨3 - r, by omega⟩
  obtain ⟨p1, hskip⟩ := scan_rows_skip_idle r (n + 1) 0 pd (List.replicate (c + 1) s ++
      (List.replicate (c + 1) s ++ (held ++ p :: rest)))
  have hcol : c ≠ 0xFF := by omega
  have hacc := scan_rows_accept n (0 + r) p1 c _ _ _ _ (by omega)
    (read_col_held s c _ hc hlow hlowest) hcol
    (any_col_low_held s c _ hc hlow hlowest) (wait_release_held held p rest hheld hp)
  rw [← hn] at hskip
  rw [Nat.zero_add] at hskip hacc
  refine ⟨row_select p1 r, ?_⟩
  simp only [keypad_loop, hskip, hacc]

theorem read_col_all_idle (pins rest : List Nat) (col : Nat)
    (hidle : ∀ p ∈ pins, p &&& 0x07 = 0x07) (h : read_col pins = some (col, rest)) :
    col = 0xFF := by
  have hbit : ∀ p ∈ pins, p &&& 0x01 ≠ 0 ∧ p &&& 0x02 ≠ 0 ∧ p &&& 0x04 ≠ 0 :=
    fun p hp => (idle_iff p).1 (hidle p hp)
  match pins with
  | [] => cases h
  | [p] =>
    simp only [read_col, if_neg (hbit p (by simp)).1] at h
    cases h
  | [p, q] =>
    simp only [read_col, if_neg (hbit p (by simp)).1, if_neg (hbit q (by simp)).2.1] at h
    cases h
  | p :: q :: r :: pins =>
    simp only [read_col, if_neg (hbit p (by simp)).1, if_neg (hbit q (by simp)).2.1,
      if_neg (hbit r (by simp)).2.2] at h
    cases h
    rfl

theorem scan_rows_all_idle (n row portd : Nat) (pins : List Nat)
    (hidle : ∀ p ∈ pins, p &&& 0x07 = 0x07) (k p1 : Nat) (rest : List Nat) :
    scan_rows n row portd pins ≠ Scan.key k p1 rest := by
  induction n generalizing row portd pins with
  | zero =>
    intro h
    cases h
  | succ n ih =>
    intro h
    simp only [scan_rows] at h
    rcases hcol : read_col pins with _ | ⟨col, pins1⟩
    · rw [hcol] at h
      cases h
    · rw [hcol] at h
      have hff := read_col_all_idle pins pins1 col hidle hcol
      subst hff
      simp only [] at h
      rw [if_neg (by decide)] at h
      have hs := read_col_suffix _ _ _ hcol
      exact ih _ _ pins1 (fun p hp => hidle p (hs.subset hp)) h

theorem keypad_loop_all_idle (fuel portd : Nat) (pins : List Nat)
    (hidle : ∀ p ∈ pins, p &&& 0x07 = 0x07) : keypad_loop fuel portd pins = none := by
  induction fuel generalizing portd pins with
  | zero => rfl
  | succ fuel ih =>
    simp only [keypad_loop]
    rcases hs : scan_rows 4 0 portd pins with ⟨k2, p2, pins2⟩ | ⟨p2, pins2⟩ | _
    · exact absurd hs (scan_rows_all_idle 4 0 portd pins hidle k2 p2 pins2)
    · have hsuf := (scan_rows_suffix 4 0 portd pins (by decide)).2 p2 pins2 hs
      exact ih p2 pins2 (fun p hp => hidle p (hsuf.subset hp))
    · rfl

theorem not_idle_of_low (s c : Nat) (hc : c < 3) (hlow : s &&& (1 <<< c) = 0) :
    s &&& 0x07 ≠ 0x07 := by
  intro h
  obtain ⟨h0, h1, h2⟩ := (idle_iff s).1 h
  interval_cases c
  · exact h0 hlow
  · exact h1 hlow
  · exact h2 hlow

/-! ## Row selection -/

theorem row_select_testBit (portd r i : Nat) (hi : i < 8) :
    (row_select portd r).testBit i =
      ((portd.testBit i || (decide (3 ≤ i) && decide (i < 7))) && !decide (3 + r = i)) := by
  have h : row_select portd r
      = ((portd ||| 0x78) % 2 ^ 8 &&& (0xFF ^^^ 2 ^ (3 + r))) % 2 ^ 8 := by
    simp only [row_select, Nat.one_shiftLeft]
    rfl
  have h78 : ∀ j < 8, Nat.testBit 0x78 j = (decide (3 ≤ j) && decide (j < 7)) := by decide
  have hFF : ∀ j < 8, Nat.testBit 0xFF j = true := by decide
  rw [h, Nat.testBit_mod_two_pow, Nat.testBit_and, Nat.testBit_mod_two_pow, Nat.testBit_or,
    Nat.testBit_xor, Nat.testBit_two_pow, h78 i hi, hFF i hi]
  simp [hi]

/-! ## The relay output -/

theorem relay_kept_of_eq (s s1 : State) (hp : s1.PORTC = s.PORTC)
    (ht : s1.PORTC_trace = s.PORTC_trace) : relay_kept s s1 :=
  ⟨[], (by rw [ht, List.append_nil]), (fun p hp => by cases hp), (by rw [hp])⟩

theorem relay_kept_trans (s s1 s2 : State) (h1 : relay_kept s s1) (h2 : relay_kept s1 s2) :
    relay_kept s s2 := by
  obtain ⟨a1, ht1, ha1, hr1⟩ := h1
  obtain ⟨a2, ht2, ha2, hr2⟩ := h2
  refine ⟨a1 ++ a2, by rw [ht2, ht1, List.append_assoc], ?_, hr2.trans hr1⟩
  intro p hp
  rcases List.mem_append.1 hp with h | h
  · exact ha1 p h
  · exact (ha2 p h).trans hr1

theorem relay_portc_other (s : State) (n : Nat) (v : Bool) (hn : n ≠ 1) :
    relay (s.portc n v).PORTC = relay s.PORTC := by
  have h1 : ¬ n = 1 := hn
  have hFF : Nat.testBit 0xFF 1 = true := by decide
  cases v
  · show Nat.testBit (s.PORTC &&& (0xFF ^^^ (1 <<< n))) 1 = Nat.testBit s.PORTC 1
    rw [Nat.one_shiftLeft, Nat.testBit_and, Nat.testBit_xor, Nat.testBit_two_pow, hFF]
    simp [h1]
  · show Nat.testBit (s.PORTC ||| (1 <<< n)) 1 = Nat.testBit s.PORTC 1
    rw [Nat.one_shiftLeft, Nat.testBit_or, Nat.testBit_two_pow]
    simp [h1]

theorem relay_portc_clear (s : State) : relay (s.portc 1 false).PORTC = false := by
  have hFF : Nat.testBit 0xFF 1 = true := by decide
  show Nat.testBit (s.PORTC &&& (0xFF ^^^ (1 <<< 1))) 1 = false
  rw [Nat.one_shiftLeft, Nat.testBit_and, Nat.testBit_xor, Nat.testBit_two_pow, hFF]
  simp

theorem relay_kept_portc (s : State) (n : Nat) (v : Bool) (hn : n ≠ 1) :
    relay_kept s (s.portc n v) :=
  ⟨[(s.portc n v).PORTC], rfl,
    (fun p hp => by rw [List.mem_singleton.1 hp]; exact relay_portc_other s n v hn),
    relay_portc_other s n v hn⟩

theorem relay_kept_pulse (s : State) (n m : Nat) (hn : n ≠ 1) (hm : m ≠ 1) :
    relay_kept s ((s.portc n true).portc m false) :=
  relay_kept_trans _ _ _ (relay_kept_portc s n true hn) (relay_kept_portc _ m false hm)

theorem relay_kept_writes {α : Type} (s : State) (o : Outcome α) (h : relay_kept s o.state) :
    (∀ p ∈ o.writes s, relay p = relay s.PORTC) ∧ relay o.state.PORTC = relay s.PORTC := by
  obtain ⟨added, ht, ha, hr⟩ := h
  refine ⟨?_, hr⟩
  intro p hp
  unfold Outcome.writes at hp
  rw [ht, List.drop_left] at hp
  exact ha p hp

theorem denied_state_relay (s : State) (entry : List Nat) :
    relay_kept s (denied_state s entry) := by
  unfold denied_state
  refine relay_kept_trans _ _ _ (relay_kept_of_eq s _ rfl rfl) ?_
  refine relay_kept_trans _ _ _ (relay_kept_portc _ 3 true (by decide)) ?_
  refine relay_kept_trans _ _ _ (relay_kept_pulse _ 0 0 (by decide) (by decide)) ?_
  exact relay_kept_portc _ 3 false (by decide)

theorem lockout_state_relay (s : State) (entry : List Nat) :
    relay_kept s (lockout_state s entry) := by
  unfold lockout_state
  refine relay_kept_trans _ _ _ (denied_state_relay s entry) ?_
  refine relay_kept_trans _ _ _ (relay_kept_portc _ 2 true (by decide)) ?_
  exact relay_kept_pulse _ 0 0 (by decide) (by decide)

theorem old_wrong_state_relay (s : State) (old : List Nat) :
    relay_kept s (old_wrong_state s old) := by
  unfold old_wrong_state
  exact relay_kept_trans _ _ _ (relay_kept_of_eq s _ rfl rfl)
    (relay_kept_pulse _ 0 0 (by decide) (by decide))

theorem new_password_relay (s : State) (keys : List Nat) :
    relay_kept s (new_password s keys).state := by
  unfold new_password
  rcases read_code 6 0 s.password_entry keys with ⟨b, _ | k2⟩
  · exact relay_kept_of_eq s _ rfl rfl
  · simp only []
    split_ifs
    · exact relay_kept_trans _ _ _ (relay_kept_of_eq s _ rfl rfl)
        (relay_kept_pulse _ 0 0 (by decide) (by decide))
    · rcases read_code 6 0 s.password_temp k2 with ⟨b2, _ | k3⟩
      · exact relay_kept_of_eq s _ rfl rfl
      · simp only []
        rcases read_code 6 0 b k3 with ⟨b3, _ | k4⟩
        · exact relay_kept_of_eq s _ rfl rfl
        · simp only []
          split_ifs
          · exact relay_kept_of_eq s _ rfl rfl
          · exact relay_kept_trans _ _ _ (relay_kept_of_eq s _ rfl rfl)
              (relay_kept_pulse _ 0 0 (by decide) (by decide))

theorem password_check_cases (s : State) (keys : List Nat) (hs : s.wf) :
    (keys.length < 6 ∧ password_check s keys =
      Outcome.waiting { s with password_entry := (read_code 6 0 s.password_entry keys).1 }) ∨
    (∃ entry rest, keys = entry ++ rest ∧ entry.length = 6 ∧
      entry.map key_to_char = s.saved_password ∧
      password_check s keys = Outcome.returned 1 (granted_state s entry) rest) ∨
    (∃ entry rest, keys = entry ++ rest ∧ entry.length = 6 ∧
      entry.map key_to_char ≠ s.saved_password ∧
      password_check s keys =
        if (s.attempts + 1) % 256 ≥ 3 then Outcome.locked (lockout_state s entry) rest
        else Outcome.returned 0 (denied_state s entry) rest) := by
  by_cases hlt : keys.length < 6
  · exact Or.inl ⟨hlt, password_check_starved s keys hlt⟩
  · have hlen : (keys.take 6).length = 6 := by
      rw [List.length_take]
      omega
    have hsplit : keys = keys.take 6 ++ keys.drop 6 := (List.take_append_drop 6 keys).symm
    by_cases heq : (keys.take 6).map key_to_char = s.saved_password
    · refine Or.inr (Or.inl ⟨keys.take 6, keys.drop 6, hsplit, hlen, heq, ?_⟩)
      have := password_check_match s (keys.take 6) (keys.drop 6) hs.2.1 hlen heq
      rwa [← hsplit] at this
    · refine Or.inr (Or.inr ⟨keys.take 6, keys.drop 6, hsplit, hlen, heq, ?_⟩)
      have := password_check_mismatch s (keys.take 6) (keys.drop 6) hs.2.1 hlen hs.1 heq
      rwa [← hsplit] at this

theorem password_check_relay (s : State) (keys : List Nat) (hs : s.wf) :
    relay_kept s (password_check s keys).state ∨
    ∃ entry rest, keys = entry ++ rest ∧ entry.length = 6 ∧
      entry.map key_to_char = s.saved_password ∧
      password_check s keys = Outcome.returned 1 (granted_state s entry) rest := by
  rcases password_check_cases s keys hs with ⟨_, h⟩ | h | ⟨entry, rest, _, _, _, h⟩
  · left
    rw [h]
    exact relay_kept_of_eq s _ rfl rfl
  · exact Or.inr h
  · left
    rw [h]
    split_ifs
    · exact lockout_state_relay s entry
    · exact denied_state_relay s entry

theorem menu_step_relay (s : State) (keys : List Nat) (hs : s.wf) :
    relay_kept s (menu_step s keys).state ∨
    (∃ entry rest, keys = 10 :: (entry ++ rest) ∧ entry.length = 6 ∧
      entry.map key_to_char = s.saved_password ∧
      password_check s (entry ++ rest) = Outcome.returned 1 (granted_state s entry) rest ∧
      (∃ s1, menu_step s keys = Outcome.returned () s1 rest ∧ relay s1.PORTC = false)) := by
  cases keys with
  | nil => exact Or.inl (relay_kept_of_eq s _ rfl rfl)
  | cons k keys =>
    by_cases h10 : k = 10
    · subst h10
      rcases password_check_cases s keys hs with ⟨_, h⟩ | ⟨entry, rest, hk, hlen, heq, hpc⟩ |
        ⟨entry, rest, _, _, _, h⟩
      · left
        rw [menu_step_star, h]
        exact relay_kept_of_eq s _ rfl rfl
      · right
        subst hk
        refine ⟨entry, rest, rfl, hlen, heq, hpc, ?_⟩
        rw [menu_step_star, hpc]
        simp only []
        rw [if_pos (by decide)]
        exact ⟨_, rfl, relay_portc_clear _⟩
      · left
        rw [menu_step_star, h]
        by_cases h3 : (s.attempts + 1) % 256 ≥ 3
        · rw [if_pos h3]
          exact lockout_state_relay s entry
        · rw [if_neg h3]
          simp only []
          rw [if_neg (by decide)]
          exact relay_kept_trans _ _ _ (denied_state_relay s entry)
            (relay_kept_of_eq _ _ rfl rfl)
    · left
      by_cases h11 : k = 11
      · subst h11
        rw [menu_step_hash]
        exact new_password_relay s keys
      · rw [menu_step_other s k keys h10 h11]
        exact relay_kept_of_eq s _ rfl rfl

theorem menu_reachable_relay (s : State) (h : MenuReachable s) : relay s.PORTC = false := by
  induction h with
  | boot eeprom h => exact (by decide : relay 0x00 = false)
  | @step s0 s1 keys keys1 hreach hstep ih =>
    rcases menu_step_relay s0 keys (menu_reachable_wf s0 hreach) with hk | ⟨_, _, _, _, _, _, s2, h2, hoff⟩
    · rw [hstep] at hk
      obtain ⟨_, _, _, hr⟩ := hk
      exact hr.trans ih
    · rw [hstep] at h2
      cases h2
      exact hoff

/-! ## Row iterations that report no key -/

/-- C1: for every stored credential, every prior value of the attempts counter
and every 6 key events whose symbols equal the stored credential position by
position, `password_check` returns 1 and leaves the attempts counter at 0. -/
theorem C1_password_check_granted (s : State) (entry rest : List Nat)
    (hbuf : s.password_entry.length = 6) (hlen : entry.length = 6)
    (heq : entry.map key_to_char = s.saved_password) :
    ∃ s1, password_check s (entry ++ rest) = Outcome.returned 1 s1 rest ∧ s1.attempts = 0 :=
  ⟨granted_state s entry, password_check_match s entry rest hbuf hlen heq, rfl⟩

/-- Witness of C1: credential 123456, two failures already counted, entry
1 2 3 4 5 6. -/
theorem C1_password_check_granted_witness :
    ∃ s1, password_check { power_on default_password with attempts := 2 }
        ([1, 2, 3, 4, 5, 6] ++ [7]) = Outcome.returned 1 s1 [7] ∧ s1.attempts = 0 :=
  C1_password_check_granted { power_on default_password with attempts := 2 }
    [1, 2, 3, 4, 5, 6] [7] (by decide) (by decide) (by decide)

/-- C2, as stated, fails: with two failures already counted, a wrong entry
does not return Denied; `password_check` ends in the lockout loop. -/
theorem C2_counterexample :
    [1, 1, 1, 1, 1, 1].map key_to_char ≠ default_password ∧
    (password_check { power_on default_password with attempts := 2 }
      [1, 1, 1, 1, 1, 1]).value = none ∧
    (password_check { power_on default_password with attempts := 2 }
      [1, 1, 1, 1, 1, 1]).is_locked = true ∧
    (password_check { power_on default_password with attempts := 2 }
      [1, 1, 1, 1, 1, 1]).state.attempts = 3 := by
  decide

/-- C2, amended: for every stored credential and every 6 key events whose
symbols differ from it in at least one position, `password_check` never
returns Granted; the attempts counter afterwards is the 8-bit successor of its
prior value (one more, below 255); when the new value is below 3 the routine
returns Denied (0), and when it is 3 or more the routine does not return but
enters the lockout loop. -/
theorem C2_password_check_denied (s : State) (entry rest : List Nat)
    (hbuf : s.password_entry.length = 6) (hlen : entry.length = 6)
    (hsaved : s.saved_password.length = 6)
    (hne : entry.map key_to_char ≠ s.saved_password) :
    ∃ s1, s1.attempts = (s.attempts + 1) % 256 ∧
      (s.attempts < 255 → s1.attempts = s.attempts + 1) ∧
      (s1.attempts < 3 → password_check s (entry ++ rest) = Outcome.returned 0 s1 rest) ∧
      (3 ≤ s1.attempts → password_check s (entry ++ rest) = Outcome.locked s1 rest) ∧
      (∀ s2 keys, password_check s (entry ++ rest) ≠ Outcome.returned 1 s2 keys) := by
  have h := password_check_mismatch s entry rest hbuf hlen hsaved hne
  by_cases h3 : (s.attempts + 1) % 256 ≥ 3
  · rw [if_pos h3] at h
    refine ⟨lockout_state s entry, rfl, ?_, ?_, fun _ => h, ?_⟩
    · intro hlt
      show (s.attempts + 1) % 256 = s.attempts + 1
      omega
    · intro hlt
      have : (lockout_state s entry).attempts = (s.attempts + 1) % 256 := rfl
      omega
    · intro s2 keys
      rw [h]
      simp
  · rw [if_neg h3] at h
    refine ⟨denied_state s entry, rfl, ?_, fun _ => h, ?_, ?_⟩
    · intro hlt
      show (s.attempts + 1) % 256 = s.attempts + 1
      omega
    · intro hge
      have : (denied_state s entry).attempts = (s.attempts + 1) % 256 := rfl
      omega
    · intro s2 keys
      rw [h]
      simp

/-- Witness of C2 (amended): credential 123456, entry 1 2 3 4 5 7 with five of
six positions correct, no failure counted yet. -/
theorem C2_password_check_denied_witness :
    ∃ s1, s1.attempts = ((power_on default_password).attempts + 1) % 256 ∧
      ((power_on default_password).attempts < 255 →
        s1.attempts = (power_on default_password).attempts + 1) ∧
      (s1.attempts < 3 → password_check (power_on default_password)
        ([1, 2, 3, 4, 5, 7] ++ []) = Outcome.returned 0 s1 []) ∧
      (3 ≤ s1.attempts → password_check (power_on default_password)
        ([1, 2, 3, 4, 5, 7] ++ []) = Outcome.locked s1 []) ∧
      (∀ s2 keys, password_check (power_on default_password)
        ([1, 2, 3, 4, 5, 7] ++ []) ≠ Outcome.returned 1 s2 keys) :=
  C2_password_check_denied (power_on default_password) [1, 2, 3, 4, 5, 7] []
    (by decide) (by decide) (by decide) (by decide)

/-- C3: from power-on with any stored credential, three failed verifications
in a row leave the controller in the lockout loop with the stored credential
as it was and the counter at 3, and every key event that follows is left
unread; in every run that has reached the lockout loop, key events added to
the input change neither the state nor the outcome; and in any run, a failed
verification at a menu state with two failures since power-on or the last
successful verification enters the lockout loop. -/
theorem C3_lockout_after_three_failures (eeprom : List Char) (e1 e2 e3 : List Nat)
    (heeprom : eeprom.length = 6)
    (h1 : e1.length = 6) (h2 : e2.length = 6) (h3 : e3.length = 6)
    (hne1 : e1.map key_to_char ≠ eeprom) (hne2 : e2.map key_to_char ≠ eeprom)
    (hne3 : e3.map key_to_char ≠ eeprom) :
    ∃ s, s.saved_password = eeprom ∧ s.attempts = 3 ∧
      (∀ rest, main eeprom (10 :: (e1 ++ (10 :: (e2 ++ (10 :: (e3 ++ rest))))))
        = Outcome.locked s rest) ∧
      (∀ keys s1 r1, main eeprom keys = Outcome.locked s1 r1 →
        ∀ more, main eeprom (keys ++ more) = Outcome.locked s1 (r1 ++ more)) ∧
      (∀ s0 entry rest, FailedSince s0 2 → entry.length = 6 →
        entry.map key_to_char ≠ s0.saved_password →
        ∃ s1, menu_step s0 (10 :: (entry ++ rest)) = Outcome.locked s1 rest ∧
          s1.saved_password = s0.saved_password ∧ s1.attempts = 3) := by
  have w0 : (power_on eeprom).wf := ⟨heeprom, rfl, rfl⟩
  have w1 : ({ denied_state (power_on eeprom) e1 with access_granted := false } : State).wf :=
    ⟨heeprom, by show (e1.map key_to_char).length = 6; simpa using h1, rfl⟩
  have w2 : ({ denied_state { denied_state (power_on eeprom) e1 with access_granted := false }
      e2 with access_granted := false } : State).wf :=
    ⟨heeprom, by show (e2.map key_to_char).length = 6; simpa using h2, rfl⟩
  refine ⟨lockout_state { denied_state { denied_state (power_on eeprom) e1 with
      access_granted := false } e2 with access_granted := false } e3, rfl, rfl, ?_, ?_, ?_⟩
  · intro rest
    have hloop : main_loop 3 (power_on eeprom)
        (10 :: (e1 ++ (10 :: (e2 ++ (10 :: (e3 ++ rest)))))) =
        Outcome.locked (lockout_state { denied_state { denied_state (power_on eeprom) e1 with
          access_granted := false } e2 with access_granted := false } e3) rest := by
      simp only [main_loop]
      rw [menu_step_denied _ e1 _ w0 h1 hne1 Nat.zero_lt_two]
      simp only []
      rw [menu_step_denied _ e2 _ w1 h2 hne2 (by show (0 + 1) % 256 < 2; omega)]
      simp only []
      rw [menu_step_lockout _ e3 _ w2 h3 hne3 rfl]
    have hfuel := main_loop_locked_fuel 3 (rest.length + 19) _ _ _ _ hloop
    unfold main
    have hl : (10 :: (e1 ++ (10 :: (e2 ++ (10 :: (e3 ++ rest)))))).length + 1
        = 3 + (rest.length + 19) := by
      simp only [List.length_cons, List.length_append, h1, h2, h3]
      omega
    rw [hl]
    exact hfuel
  · intro keys s1 r1 h more
    exact main_absorbing eeprom keys r1 more s1 h
  · intro s0 entry rest hf hlen hne
    obtain ⟨hreach, hatt⟩ := failed_since_spec s0 2 hf
    refine ⟨lockout_state s0 entry,
      menu_step_lockout s0 entry rest (menu_reachable_wf s0 hreach) hlen hne hatt, rfl, ?_⟩
    show (s0.attempts + 1) % 256 = 3
    rw [hatt]

/-- Witness of C3: default credential 123456, entry 111111 made three times
through the star key. -/
theorem C3_lockout_after_three_failures_witness :
    ∃ s, s.saved_password = default_password ∧ s.attempts = 3 ∧
      (∀ rest, main default_password (10 :: ([1, 1, 1, 1, 1, 1] ++ (10 :: ([1, 1, 1, 1, 1, 1] ++
        (10 :: ([1, 1, 1, 1, 1, 1] ++ rest)))))) = Outcome.locked s rest) ∧
      (∀ keys s1 r1, main default_password keys = Outcome.locked s1 r1 →
        ∀ more, main default_password (keys ++ more) = Outcome.locked s1 (r1 ++ more)) ∧
      (∀ s0 entry rest, FailedSince s0 2 → entry.length = 6 →
        entry.map key_to_char ≠ s0.saved_password →
        ∃ s1, menu_step s0 (10 :: (entry ++ rest)) = Outcome.locked s1 rest ∧
          s1.saved_password = s0.saved_password ∧ s1.attempts = 3) :=
  C3_lockout_after_three_failures default_password [1, 1, 1, 1, 1, 1] [1, 1, 1, 1, 1, 1]
    [1, 1, 1, 1, 1, 1] (by decide) (by decide) (by decide) (by decide) (by decide)
    (by decide) (by decide)

/-- C4, as stated, fails when the new code equals the old one: after the
change 123456 to 123456, `password_check` with the old code returns 1. -/
theorem C4_counterexample :
    (new_password (power_on default_password)
      [1, 2, 3, 4, 5, 6, 1, 2, 3, 4, 5, 6, 1, 2, 3, 4, 5, 6]).value = some () ∧
    (new_password (power_on default_password)
      [1, 2, 3, 4, 5, 6, 1, 2, 3, 4, 5, 6, 1, 2, 3, 4, 5, 6]).state.saved_password
        = [1, 2, 3, 4, 5, 6].map key_to_char ∧
    [1, 2, 3, 4, 5, 6].map key_to_char = default_password ∧
    (password_check (new_password (power_on default_password)
      [1, 2, 3, 4, 5, 6, 1, 2, 3, 4, 5, 6, 1, 2, 3, 4, 5, 6]).state
      [1, 2, 3, 4, 5, 6]).value = some 1 := by
  decide

/-- C4, amended: for every stored credential C and every 6-symbol code N other
than C, `new_password` with old-code entry C, new code N and confirmation N
leaves the stored credential equal to N; a following `password_check` with
entry N returns 1, and a `password_check` with entry C after that returns 0, as
does one made directly after the change while fewer than two failures are
counted. -/
theorem C4_change_then_verify (s : State) (old new conf rest : List Nat)
    (hbuf : s.password_entry.length = 6) (htemp : s.password_temp.length = 6)
    (hold : old.length = 6) (hnew : new.length = 6) (hconf : conf.length = 6)
    (heq : old.map key_to_char = s.saved_password)
    (hsame : conf.map key_to_char = new.map key_to_char)
    (hdiff : new.map key_to_char ≠ s.saved_password) :
    ∃ s1, new_password s (old ++ (new ++ (conf ++ rest))) = Outcome.returned () s1 rest ∧
      s1.saved_password = new.map key_to_char ∧
      (∀ e r, e.length = 6 → e.map key_to_char = new.map key_to_char →
        ∃ s2, password_check s1 (e ++ r) = Outcome.returned 1 s2 r ∧
          ∀ e2 r2, e2.length = 6 → e2.map key_to_char = s.saved_password →
            ∃ s3, password_check s2 (e2 ++ r2) = Outcome.returned 0 s3 r2) ∧
      (s.attempts < 2 → ∀ e2 r2, e2.length = 6 → e2.map key_to_char = s.saved_password →
        ∃ s3, password_check s1 (e2 ++ r2) = Outcome.returned 0 s3 r2) := by
  have hconf2 : (conf.map key_to_char).length = 6 := by simpa using hconf
  have hnew2 : (new.map key_to_char).length = 6 := by simpa using hnew
  refine ⟨committed_state s new conf,
    new_password_commit s old new conf rest hbuf htemp hold hnew hconf heq hsame, rfl, ?_, ?_⟩
  · intro e r he hen
    refine ⟨granted_state (committed_state s new conf) e,
      password_check_match _ e r hconf2 he hen, ?_⟩
    intro e2 r2 he2 he2c
    have hne : e2.map key_to_char ≠ (granted_state (committed_state s new conf) e).saved_password := by
      show e2.map key_to_char ≠ new.map key_to_char
      rw [he2c]
      exact fun h => hdiff h.symm
    have h := password_check_mismatch (granted_state (committed_state s new conf) e) e2 r2
      (by show (e.map key_to_char).length = 6; simpa using he) he2 hnew2 hne
    have ha : (granted_state (committed_state s new conf) e).attempts = 0 := rfl
    rw [ha, if_neg (by decide)] at h
    exact ⟨_, h⟩
  · intro hatt e2 r2 he2 he2c
    have hne : e2.map key_to_char ≠ (committed_state s new conf).saved_password := by
      show e2.map key_to_char ≠ new.map key_to_char
      rw [he2c]
      exact fun h => hdiff h.symm
    have h := password_check_mismatch (committed_state s new conf) e2 r2 hconf2 he2 hnew2 hne
    have ha : (committed_state s new conf).attempts = s.attempts := rfl
    have hlt : ¬ (s.attempts + 1) % 256 ≥ 3 := by omega
    rw [ha, if_neg hlt] at h
    exact ⟨_, h⟩

/-- Witness of C4 (amended): C = 123456, N = 999999. -/
theorem C4_change_then_verify_witness :
    ∃ s1, new_password (power_on default_password)
        ([1, 2, 3, 4, 5, 6] ++ ([9, 9, 9, 9, 9, 9] ++ ([9, 9, 9, 9, 9, 9] ++ []))) =
          Outcome.returned () s1 [] ∧
      s1.saved_password = [9, 9, 9, 9, 9, 9].map key_to_char ∧
      (∀ e r, e.length = 6 → e.map key_to_char = [9, 9, 9, 9, 9, 9].map key_to_char →
        ∃ s2, password_check s1 (e ++ r) = Outcome.returned 1 s2 r ∧
          ∀ e2 r2, e2.length = 6 →
            e2.map key_to_char = (power_on default_password).saved_password →
            ∃ s3, password_check s2 (e2 ++ r2) = Outcome.returned 0 s3 r2) ∧
      ((power_on default_password).attempts < 2 → ∀ e2 r2, e2.length = 6 →
        e2.map key_to_char = (power_on default_password).saved_password →
        ∃ s3, password_check s1 (e2 ++ r2) = Outcome.returned 0 s3 r2) :=
  C4_change_then_verify (power_on default_password) [1, 2, 3, 4, 5, 6] [9, 9, 9, 9, 9, 9]
    [9, 9, 9, 9, 9, 9] [] (by decide) (by decide) (by decide) (by decide) (by decide)
    (by decide) (by decide) (by decide)

/-- C5: the stored credential is changed only by a successfully confirmed
change. For every state and key input `password_check` leaves `saved_password`
as it was; `new_password` with a wrong old code leaves it as it was; so does
`new_password` with a correct old code and a confirmation that differs from
the new code; and whenever `new_password` ends with a different
`saved_password`, the key input was a correct old code, a new code and an equal
confirmation. -/
theorem C5_saved_password_frame (s : State)
    (hbuf : s.password_entry.length = 6) (htemp : s.password_temp.length = 6)
    (hsaved : s.saved_password.length = 6) :
    (∀ keys, (password_check s keys).state.saved_password = s.saved_password) ∧
    (∀ old rest, old.length = 6 → old.map key_to_char ≠ s.saved_password →
      (new_password s (old ++ rest)).state.saved_password = s.saved_password) ∧
    (∀ old new conf rest, old.length = 6 → new.length = 6 → conf.length = 6 →
      old.map key_to_char = s.saved_password →
      conf.map key_to_char ≠ new.map key_to_char →
      (new_password s (old ++ (new ++ (conf ++ rest)))).state.saved_password
        = s.saved_password) ∧
    (∀ keys, (new_password s keys).state.saved_password ≠ s.saved_password →
      ∃ old new conf rest, keys = old ++ (new ++ (conf ++ rest)) ∧
        old.length = 6 ∧ new.length = 6 ∧ conf.length = 6 ∧
        old.map key_to_char = s.saved_password ∧
        conf.map key_to_char = new.map key_to_char) := by
  refine ⟨password_check_saved_password s, ?_, ?_, ?_⟩
  · intro old rest hold hne
    rw [new_password_old_wrong s old rest hbuf hsaved hold hne]
    rfl
  · intro old new conf rest hold hnew hconf heq hdiff
    rw [new_password_mismatch s old new conf rest hbuf htemp hold hnew hconf heq hdiff]
    rfl
  · intro keys hchg
    rcases new_password_saved_password s keys hbuf htemp hsaved with h | h
    · exact absurd h hchg
    · obtain ⟨old, new, conf, rest, hk, h1, h2, h3, h4, h5, _⟩ := h
      exact ⟨old, new, conf, rest, hk, h1, h2, h3, h4, h5⟩

/-- Witness of C5: credential 123456, correct old code, new code 999999,
confirmation 999998. -/
theorem C5_saved_password_frame_witness :
    (new_password (power_on default_password)
      ([1, 2, 3, 4, 5, 6] ++ ([9, 9, 9, 9, 9, 9] ++ ([9, 9, 9, 9, 9, 8] ++ [])))).state.saved_password
        = (power_on default_password).saved_password :=
  (C5_saved_password_frame (power_on default_password) (by decide) (by decide)
    (by decide)).2.2.1 [1, 2, 3, 4, 5, 6] [9, 9, 9, 9, 9, 9] [9, 9, 9, 9, 9, 8] []
    (by decide) (by decide) (by decide) (by decide) (by decide)

/-- C6: when the old-code entry differs from the stored credential,
`new_password` returns after exactly those 6 key events, whatever key events
follow, without entering the lockout loop, and the attempts counter is as it
was, for every prior counter value; the menu iteration started by the key 11
returns to the menu in that state. -/
theorem C6_new_password_abort (s : State) (old rest : List Nat)
    (hbuf : s.password_entry.length = 6) (hsaved : s.saved_password.length = 6)
    (hold : old.length = 6) (hne : old.map key_to_char ≠ s.saved_password) :
    ∃ s1, new_password s (old ++ rest) = Outcome.returned () s1 rest ∧
      menu_step s (11 :: (old ++ rest)) = Outcome.returned () s1 rest ∧
      s1.attempts = s.attempts ∧
      s1.saved_password = s.saved_password ∧
      s1.password_temp = s.password_temp := by
  have h := new_password_old_wrong s old rest hbuf hsaved hold hne
  refine ⟨old_wrong_state s old, h, ?_, rfl, rfl, rfl⟩
  simp [menu_step, h]

/-- Witness of C6: credential 123456, two failures counted, old-code entry
123455 followed by further key events. -/
theorem C6_new_password_abort_witness :
    ∃ s1, new_password { power_on default_password with attempts := 2 }
        ([1, 2, 3, 4, 5, 5] ++ [9, 9, 10]) = Outcome.returned () s1 [9, 9, 10] ∧
      menu_step { power_on default_password with attempts := 2 }
        (11 :: ([1, 2, 3, 4, 5, 5] ++ [9, 9, 10])) = Outcome.returned () s1 [9, 9, 10] ∧
      s1.attempts = ({ power_on default_password with attempts := 2 } : State).attempts ∧
      s1.saved_password
        = ({ power_on default_password with attempts := 2 } : State).saved_password ∧
      s1.password_temp
        = ({ power_on default_password with attempts := 2 } : State).password_temp :=
  C6_new_password_abort { power_on default_password with attempts := 2 }
    [1, 2, 3, 4, 5, 5] [9, 9, 10] (by decide) (by decide) (by decide) (by decide)

/-- C7: in every state in which the controller is at the menu the attempts
counter is 0, 1 or 2; a successful verification resets it to 0; a failed
verification increments it; and the controller enters the lockout loop exactly
when a failed verification brings the counter to 3. -/
theorem C7_attempts_counter (s : State) (hs : MenuReachable s) :
    s.attempts < 3 ∧
    (∀ entry rest, entry.length = 6 → entry.map key_to_char = s.saved_password →
      ∃ s1, password_check s (entry ++ rest) = Outcome.returned 1 s1 rest ∧ s1.attempts = 0) ∧
    (∀ entry rest, entry.length = 6 → entry.map key_to_char ≠ s.saved_password →
      (password_check s (entry ++ rest)).state.attempts = s.attempts + 1 ∧
      ((password_check s (entry ++ rest)).is_locked = true ↔ s.attempts + 1 = 3) ∧
      ((menu_step s (10 :: (entry ++ rest))).is_locked = true ↔ s.attempts + 1 = 3)) ∧
    (∀ keys, (menu_step s keys).is_locked = true →
      ∃ entry rest, keys = 10 :: (entry ++ rest) ∧ entry.length = 6 ∧
        entry.map key_to_char ≠ s.saved_password ∧ s.attempts + 1 = 3) := by
  have hwf := menu_reachable_wf s hs
  have hatt := menu_reachable_attempts s hs
  have hfail : ∀ entry rest, entry.length = 6 → entry.map key_to_char ≠ s.saved_password →
      (password_check s (entry ++ rest)).state.attempts = s.attempts + 1 ∧
      ((password_check s (entry ++ rest)).is_locked = true ↔ s.attempts + 1 = 3) := by
    intro entry rest hlen hne
    rw [password_check_mismatch s entry rest hwf.2.1 hlen hwf.1 hne]
    by_cases h3 : (s.attempts + 1) % 256 ≥ 3
    · rw [if_pos h3]
      refine ⟨?_, ?_⟩
      · show (s.attempts + 1) % 256 = s.attempts + 1
        omega
      · simp only [Outcome.is_locked, true_iff]
        omega
    · rw [if_neg h3]
      refine ⟨?_, ?_⟩
      · show (s.attempts + 1) % 256 = s.attempts + 1
        omega
      · simp only [Outcome.is_locked, Bool.false_eq_true, false_iff]
        omega
  refine ⟨hatt, ?_, ?_, ?_⟩
  · intro entry rest hlen heq
    exact ⟨granted_state s entry, password_check_match s entry rest hwf.2.1 hlen heq, rfl⟩
  · intro entry rest hlen hne
    obtain ⟨ha, hl⟩ := hfail entry rest hlen hne
    refine ⟨ha, hl, ?_⟩
    rw [menu_step_star_is_locked]
    exact hl
  · intro keys hlocked
    cases keys with
    | nil => cases hlocked
    | cons k keys =>
      by_cases h10 : k = 10
      · subst h10
        rw [menu_step_star_is_locked] at hlocked
        rcases hpc : password_check s keys with ⟨r, s2, k2⟩ | ⟨s2, k2⟩ | ⟨s2⟩
        · rw [hpc] at hlocked
          cases hlocked
        · obtain ⟨hk, ha, h3, hne⟩ := password_check_locked s s2 keys k2 hpc
          have hlen : (keys.take 6).length = 6 := by
            rw [List.length_take]
            omega
          have hsplit : keys = keys.take 6 ++ keys.drop 6 := (List.take_append_drop 6 keys).symm
          have hrc := read_code_entry s.password_entry (keys.take 6) (keys.drop 6) hwf.2.1 hlen
          rw [← hsplit] at hrc
          rw [hrc] at hne
          refine ⟨keys.take 6, keys.drop 6, by rw [← hsplit], hlen, hne, ?_⟩
          omega
        · rw [hpc] at hlocked
          cases hlocked
      · by_cases h11 : k = 11
        · subst h11
          rw [menu_step_hash, new_password_not_locked] at hlocked
          cases hlocked
        · rw [menu_step_other s k keys h10 h11] at hlocked
          cases hlocked

/-- Witness of C7: the menu state after two failed verifications from the
default credential. -/
theorem C7_attempts_counter_witness :
    ({ denied_state { denied_state (power_on default_password) [1, 1, 1, 1, 1, 1] with
        access_granted := false } [2, 2, 2, 2, 2, 2] with access_granted := false }
      : State).attempts = 2 ∧
    (menu_step { denied_state { denied_state (power_on default_password) [1, 1, 1, 1, 1, 1] with
        access_granted := false } [2, 2, 2, 2, 2, 2] with access_granted := false }
      (10 :: ([3, 3, 3, 3, 3, 3] ++ [5]))).is_locked = true :=
  ⟨by decide,
   ((C7_attempts_counter _
      (MenuReachable.step
        (MenuReachable.step (MenuReachable.boot default_password (by decide))
          (menu_step_denied (power_on default_password) [1, 1, 1, 1, 1, 1] []
            ⟨by decide, by decide, by decide⟩ (by decide) (by decide) (by decide)))
        (menu_step_denied _ [2, 2, 2, 2, 2, 2] [] ⟨by decide, by decide, by decide⟩
          (by decide) (by decide) (by decide)))).2.2.1
      [3, 3, 3, 3, 3, 3] [5] (by decide) (by decide)).2.2.2 (by decide)⟩

/-- C8: at the menu one key event is read and dispatched. With no key event
the controller waits in `keypad()`; key code 10 runs `password_check` on the
key events that follow, and the access flag becomes its return value; key code
11 runs `new_password`; every other key code is ignored, the whole state stays
as it was and the next iteration reads the next key event. -/
theorem C8_menu_dispatch (s : State) (k : Nat) (keys : List Nat) :
    menu_step s [] = Outcome.waiting s ∧
    (k = 10 →
      (∀ r s1 k1, password_check s keys = Outcome.returned r s1 k1 →
        ∃ s2, menu_step s (k :: keys) = Outcome.returned () s2 k1 ∧
          s2.access_granted = decide (r ≠ 0) ∧
          s2.saved_password = s1.saved_password ∧ s2.attempts = s1.attempts ∧
          s2.password_entry = s1.password_entry ∧ s2.password_temp = s1.password_temp) ∧
      (∀ s1 k1, password_check s keys = Outcome.locked s1 k1 →
        menu_step s (k :: keys) = Outcome.locked s1 k1) ∧
      (∀ s1, password_check s keys = Outcome.waiting s1 →
        menu_step s (k :: keys) = Outcome.waiting s1)) ∧
    (k = 11 → menu_step s (k :: keys) = new_password s keys) ∧
    (k ≠ 10 → k ≠ 11 → menu_step s (k :: keys) = Outcome.returned () s keys) := by
  refine ⟨rfl, ?_, ?_, menu_step_other s k keys⟩
  · intro hk
    subst hk
    refine ⟨?_, ?_, ?_⟩
    · intro r s1 k1 hpc
      rw [menu_step_star, hpc]
      simp only []
      by_cases hr : r ≠ 0
      · rw [if_pos hr]
        refine ⟨_, rfl, by simp [hr], rfl, ?_, rfl, rfl⟩
        rcases (password_check_returned s s1 keys k1 r hpc).2 with ⟨_, h0⟩ | ⟨hr0, _⟩
        · exact h0.symm
        · exact absurd hr0 hr
      · rw [if_neg hr]
        exact ⟨_, rfl, by simp [hr], rfl, rfl, rfl, rfl⟩
    · intro s1 k1 hpc
      rw [menu_step_star, hpc]
    · intro s1 hpc
      rw [menu_step_star, hpc]
  · intro hk
    subst hk
    exact menu_step_hash s keys

/-- Witness of C8: the digit key 5 at the menu after power-on. -/
theorem C8_menu_dispatch_witness :
    menu_step (power_on default_password) (5 :: [10, 1, 2]) =
      Outcome.returned () (power_on default_password) [10, 1, 2] :=
  (C8_menu_dispatch (power_on default_password) 5 [10, 1, 2]).2.2.2 (by decide) (by decide)

/-- C9: for every row r in 0..3 and column c in 0..2 the symbol of the key at
(r, c), the key assignment of `keypad` followed by `key_to_char`, is the digit
character of 3 * r + c + 1 for r in 0..2, and the star, the zero and the hash
for r = 3 and c = 0, 1, 2. -/
theorem C9_keypad_layout (r c : Nat) (hr : r < 4) (hc : c < 3) :
    (r < 3 → key_to_char (key_map r c) = Nat.digitChar (3 * r + c + 1)) ∧
    (r = 3 → c = 0 → key_to_char (key_map r c) = '*') ∧
    (r = 3 → c = 1 → key_to_char (key_map r c) = '0') ∧
    (r = 3 → c = 2 → key_to_char (key_map r c) = '#') := by
  interval_cases r <;> interval_cases c <;> decide

/-- Witness of C9: row 1, column 2 carries the digit 6. -/
theorem C9_keypad_layout_witness : key_to_char (key_map 1 2) = Nat.digitChar (3 * 1 + 2 + 1) :=
  (C9_keypad_layout 1 2 (by decide) (by decide)).1 (by decide)

/-- C10: the stored credential always consists of exactly 6 symbols of the
alphabet. The compiled-in default does; `password_check` and `new_password`
keep it so on every key input that `keypad` can produce, and so does every run
of `main` from the default; such a credential never contains the byte 0 that
`key_to_char` returns for an unknown key code. -/
theorem C10_credential_invariant (s : State) (keys : List Nat) (hs : s.wf)
    (hv : valid_credential s.saved_password) (hkeys : ∀ k ∈ keys, keypad_key k) :
    valid_credential default_password ∧
    valid_credential (password_check s keys).state.saved_password ∧
    valid_credential (new_password s keys).state.saved_password ∧
    NUL ∉ (new_password s keys).state.saved_password ∧
    valid_credential (main default_password keys).state.saved_password := by
  have hd : valid_credential default_password := ⟨rfl, by decide⟩
  have hn := new_password_valid s keys hs hv hkeys
  refine ⟨hd, ?_, hn, ?_, ?_⟩
  · rw [password_check_saved_password]
    exact hv
  · intro h0
    have := hn.2 NUL h0
    revert this
    decide
  · exact main_loop_valid _ _ keys ⟨rfl, rfl, rfl⟩ hd hkeys

/-- Witness of C10: after power-on with the default credential, the change to
`*0#*0#` entered on the keypad. -/
theorem C10_credential_invariant_witness :
    valid_credential default_password ∧
    valid_credential (password_check (power_on default_password)
      [1, 2, 3, 4, 5, 6, 10, 0, 11, 10, 0, 11, 10, 0, 11, 10, 0, 11]).state.saved_password ∧
    valid_credential (new_password (power_on default_password)
      [1, 2, 3, 4, 5, 6, 10, 0, 11, 10, 0, 11, 10, 0, 11, 10, 0, 11]).state.saved_password ∧
    NUL ∉ (new_password (power_on default_password)
      [1, 2, 3, 4, 5, 6, 10, 0, 11, 10, 0, 11, 10, 0, 11, 10, 0, 11]).state.saved_password ∧
    valid_credential (main default_password
      [1, 2, 3, 4, 5, 6, 10, 0, 11, 10, 0, 11, 10, 0, 11, 10, 0, 11]).state.saved_password :=
  C10_credential_invariant (power_on default_password)
    [1, 2, 3, 4, 5, 6, 10, 0, 11, 10, 0, 11, 10, 0, 11, 10, 0, 11]
    ⟨by decide, by decide, by decide⟩ ⟨by decide, by decide⟩
    (fun k hk => (keypad_key_iff k).2 (by revert k; decide))

/-- C11: `keypad` returns only after a read of `PIND` with all three column
lines idle: the last sample it consumes satisfies `(PIND & 0x07) == 0x07`, for
every list of pin samples; it never returns while every sample has a column
asserted; and a key held for any number of reads and then released yields one
return, with all samples of the hold consumed. -/
theorem C11_keypad_waits_for_release (portd : Nat) :
    (∀ pins k p1 rest, keypad portd pins = some (k, p1, rest) →
      ∃ consumed p, pins = consumed ++ p :: rest ∧ p &&& 0x07 = 0x07) ∧
    (∀ pins, (∀ q ∈ pins, q &&& 0x07 ≠ 0x07) → keypad portd pins = none) ∧
    (∀ r c s m rest, r < 4 → c < 3 → s &&& (1 <<< c) = 0 →
      (∀ j < c, s &&& (1 <<< j) ≠ 0) →
      ∃ p1, keypad portd (List.replicate (3 * r) 7 ++
        (List.replicate (2 * (c + 1) + m) s ++ 7 :: rest)) = some (key_map r c, p1, rest)) := by
  have hrel : ∀ pins k p1 rest, keypad portd pins = some (k, p1, rest) →
      ∃ consumed p, pins = consumed ++ p :: rest ∧ p &&& 0x07 = 0x07 := by
    intro pins k p1 rest h
    obtain ⟨p, hp, consumed, hc⟩ := keypad_loop_release _ _ _ _ _ _ h
    exact ⟨consumed, p, hc.symm, hp⟩
  refine ⟨hrel, ?_, ?_⟩
  · intro pins hall
    rcases hk : keypad portd pins with _ | ⟨k, p1, rest⟩
    · rfl
    · obtain ⟨consumed, p, hpins, hp⟩ := hrel pins k p1 rest hk
      exact absurd hp (hall p (by rw [hpins]; simp))
  · intro r c s m rest hr hc hlow hlowest
    have hs := not_idle_of_low s c hc hlow
    have hsplit : List.replicate (2 * (c + 1) + m) s ++ 7 :: rest
        = List.replicate (c + 1) s ++ (List.replicate (c + 1) s ++
            (List.replicate m s ++ 7 :: rest)) := by
      rw [show 2 * (c + 1) + m = (c + 1) + ((c + 1) + m) by ring]
      simp only [List.replicate_add, List.append_assoc]
    rw [hsplit]
    exact keypad_press portd r c s 7 (List.replicate m s) rest hr hc hlow hlowest
      (fun q hq => by rw [List.eq_of_mem_replicate hq]; exact hs) (by decide)

/-- Witness of C11: the key 1 read low twice and then released. -/
theorem C11_keypad_waits_for_release_witness :
    ∃ consumed p, [6, 6, 7] = consumed ++ p :: [] ∧ p &&& 0x07 = 0x07 :=
  (C11_keypad_waits_for_release 0x07).1 [6, 6, 7] 1 0x77 [] (by decide)

/-- C12: the code does not meet the claim. On the samples 6, 5, 5, 7 in row 0
the column test selects column 0; at the re-check column 0 is high and only
column 1 is low; the re-check condition of lines 341-344 holds all the same,
and `keypad` returns key 1, the key of column 0. -/
theorem C12_recheck_ignores_column :
    6 &&& (1 <<< 0) = 0 ∧ read_col [6, 5, 5, 7] = some (0, [5, 5, 7]) ∧
    5 &&& (1 <<< 0) ≠ 0 ∧ 5 &&& (1 <<< 1) = 0 ∧
    recheck 0 [5, 5, 7] = some (true, [7]) ∧
    keypad 0x07 [6, 5, 5, 7] = some (key_map 0 0, 0x77, []) ∧ key_map 0 0 = 1 := by
  decide

/-- C13: for every row, when the first reads select a column and the three
reads of the re-check find all three columns idle, no key is reported for that
detection and the scan goes on with the next row on the samples that follow;
and when every sample after the first reads has all columns idle, `keypad`
reports no key at all. -/
theorem C13_bounce_rejected (n row portd col t1 t2 t3 : Nat) (pins rest : List Nat)
    (hrow : row < 4) (hfirst : read_col pins = some (col, t1 :: t2 :: t3 :: rest))
    (hcol : col ≠ 0xFF) (h1 : t1 &&& 0x01 ≠ 0) (h2 : t2 &&& 0x02 ≠ 0)
    (h3 : t3 &&& 0x04 ≠ 0) :
    scan_rows (n + 1) row portd pins = scan_rows n (row + 1) (row_select portd row) rest ∧
    ((∀ q ∈ t1 :: t2 :: t3 :: rest, q &&& 0x07 = 0x07) → keypad portd pins = none) := by
  have hrej := scan_rows_reject n row portd col pins _ _ hrow hfirst hcol
    (any_col_low_idle t1 t2 t3 rest h1 h2 h3)
  refine ⟨hrej, ?_⟩
  intro hidle
  have hrest : ∀ q ∈ rest, q &&& 0x07 = 0x07 := fun q hq =>
    hidle q (List.mem_cons_of_mem _ (List.mem_cons_of_mem _ (List.mem_cons_of_mem _ hq)))
  unfold keypad
  generalize (portd ||| ((1 <<< 3) ||| (1 <<< 4) ||| (1 <<< 5) ||| (1 <<< 6))) % 256 = pd
  simp only [keypad_loop]
  rw [scan_rows_reject 3 0 pd col pins _ _ (by decide) hfirst hcol
    (any_col_low_idle t1 t2 t3 rest h1 h2 h3)]
  rcases hs : scan_rows 3 (0 + 1) (row_select pd 0) rest with ⟨k2, p2, pins2⟩ | ⟨p2, pins2⟩ | _
  · exact absurd hs (scan_rows_all_idle 3 _ _ rest hrest k2 p2 pins2)
  · have hsuf := (scan_rows_suffix 3 (0 + 1) (row_select pd 0) rest (by decide)).2 p2 pins2 hs
    exact keypad_loop_all_idle _ p2 pins2 (fun p hp => hrest p (hsuf.subset hp))
  · rfl

/-- Witness of C13: row 0, column 1 low at the first reads (5, 5), idle at the
re-check and afterwards. -/
theorem C13_bounce_rejected_witness :
    scan_rows (3 + 1) 0 0x7F [5, 5, 7, 7, 7, 7, 7, 7]
      = scan_rows 3 (0 + 1) (row_select 0x7F 0) [7, 7, 7] ∧
    ((∀ q ∈ 7 :: 7 :: 7 :: [7, 7, 7], q &&& 0x07 = 0x07) →
      keypad 0x7F [5, 5, 7, 7, 7, 7, 7, 7] = none) :=
  C13_bounce_rejected 3 0 0x7F 1 7 7 7 [5, 5, 7, 7, 7, 7, 7, 7] [7, 7, 7] (by decide)
    (by decide) (by decide) (by decide) (by decide) (by decide)

/-- C14: for every pair of 6-byte buffers, the count-based test of
`password_check` (`match_count == 6`) and the short-circuiting test of
`new_password` (the flag is still set after the loop) both hold exactly when
the two buffers are equal at all 6 positions, that is, when they are equal. -/
theorem C14_comparisons_agree (a b : List Char) (ha : a.length = 6) (hb : b.length = 6) :
    (count_matches a b 6 0 0 = 6 ↔ ∀ i < 6, a.getD i NUL = b.getD i NUL) ∧
    (all_equal a b 6 0 ≠ 0 ↔ ∀ i < 6, a.getD i NUL = b.getD i NUL) ∧
    ((∀ i < 6, a.getD i NUL = b.getD i NUL) ↔ a = b) ∧
    (all_equal a b 6 0 = 1 ∨ all_equal a b 6 0 = 0) := by
  have hpos : (∀ i < 6, a.getD i NUL = b.getD i NUL) ↔ a = b := by
    constructor
    · intro h
      obtain ⟨a0, a1, a2, a3, a4, a5, rfl⟩ := length_six a ha
      obtain ⟨b0, b1, b2, b3, b4, b5, rfl⟩ := length_six b hb
      have h0 := h 0 (by decide)
      have h1 := h 1 (by decide)
      have h2 := h 2 (by decide)
      have h3 := h 3 (by decide)
      have h4 := h 4 (by decide)
      have h5 := h 5 (by decide)
      simp only [List.getD_cons_zero, List.getD_cons_succ] at h0 h1 h2 h3 h4 h5
      rw [h0, h1, h2, h3, h4, h5]
    · intro h i _
      rw [h]
  have hall := all_equal_six a b ha hb
  refine ⟨?_, ?_, hpos, ?_⟩
  · rw [hpos]
    exact count_matches_six a b ha hb
  · rw [hpos, Ne, hall.2]
    exact not_not
  · by_cases h : a = b
    · exact Or.inl (hall.1.2 h)
    · exact Or.inr (hall.2.2 h)

/-- Witness of C14: the entry 123457 against the credential 123456. -/
theorem C14_comparisons_agree_witness :
    (count_matches ['1', '2', '3', '4', '5', '7'] default_password 6 0 0 = 6 ↔
      ∀ i < 6, ['1', '2', '3', '4', '5', '7'].getD i NUL = default_password.getD i NUL) ∧
    (all_equal ['1', '2', '3', '4', '5', '7'] default_password 6 0 ≠ 0 ↔
      ∀ i < 6, ['1', '2', '3', '4', '5', '7'].getD i NUL = default_password.getD i NUL) ∧
    ((∀ i < 6, ['1', '2', '3', '4', '5', '7'].getD i NUL = default_password.getD i NUL) ↔
      ['1', '2', '3', '4', '5', '7'] = default_password) ∧
    (all_equal ['1', '2', '3', '4', '5', '7'] default_password 6 0 = 1 ∨
      all_equal ['1', '2', '3', '4', '5', '7'] default_password 6 0 = 0) :=
  C14_comparisons_agree ['1', '2', '3', '4', '5', '7'] default_password (by decide) (by decide)

/-- C15: for every row index r in 0..3 and every prior value of `PORTD`,
after the two row-select writes bit 3 + r is low, the other three row bits of
3..6 are high, bits 0..2 and 7 are as they were, and the value is an 8-bit
one. -/
theorem C15_row_select (portd r : Nat) (hr : r < 4) :
    (row_select portd r).testBit (3 + r) = false ∧
    (∀ j, j < 4 → j ≠ r → (row_select portd r).testBit (3 + j) = true) ∧
    (∀ i, i < 3 → (row_select portd r).testBit i = portd.testBit i) ∧
    (row_select portd r).testBit 7 = portd.testBit 7 ∧
    row_select portd r < 256 := by
  refine ⟨?_, ?_, ?_, ?_, Nat.mod_lt _ (by decide)⟩
  · rw [row_select_testBit _ _ _ (by omega)]
    simp
  · intro j hj hne
    rw [row_select_testBit _ _ _ (by omega)]
    have h1 : 3 ≤ 3 + j := by omega
    have h2 : 3 + j < 7 := by omega
    have h3 : ¬ 3 + r = 3 + j := by omega
    simp [h1, h2, h3]
  · intro i hi
    rw [row_select_testBit _ _ _ (by omega)]
    have h1 : ¬ 3 ≤ i := by omega
    have h3 : ¬ 3 + r = i := by omega
    simp [h1, h3]
  · rw [row_select_testBit _ _ _ (by omega)]
    have h3 : ¬ 3 + r = 7 := by omega
    simp [h3]

/-- Witness of C15: row 2 selected from the value 0x07 that `main` leaves in
`PORTD`. -/
theorem C15_row_select_witness :
    (row_select 0x07 2).testBit (3 + 2) = false ∧
    (∀ j, j < 4 → j ≠ 2 → (row_select 0x07 2).testBit (3 + j) = true) ∧
    (∀ i, i < 3 → (row_select 0x07 2).testBit i = (0x07).testBit i) ∧
    (row_select 0x07 2).testBit 7 = (0x07).testBit 7 ∧
    row_select 0x07 2 < 256 :=
  C15_row_select 0x07 2 (by decide)

/-- C16: the outcome of an entry operation does not depend on the transient
buffers. For two states with six-byte arrays, the same stored credential and
the same attempts counter, whatever `password_entry`, `password_temp` and the
other fields hold, and for the same key input: `password_check` returns the
same value, locks or not alike and ends with the same counter, and
`new_password` ends with the same stored credential and the same counter. -/
theorem C16_buffers_irrelevant (s t : State) (keys : List Nat) (hs : s.wf) (ht : t.wf)
    (hsaved : t.saved_password = s.saved_password) (hatt : t.attempts = s.attempts) :
    (password_check t keys).value = (password_check s keys).value ∧
    (password_check t keys).is_locked = (password_check s keys).is_locked ∧
    (password_check t keys).state.attempts = (password_check s keys).state.attempts ∧
    (password_check t keys).unread = (password_check s keys).unread ∧
    (new_password t keys).state.saved_password = (new_password s keys).state.saved_password ∧
    (new_password t keys).state.attempts = (new_password s keys).state.attempts := by
  have hpc : (password_check t keys).value = (password_check s keys).value ∧
      (password_check t keys).is_locked = (password_check s keys).is_locked ∧
      (password_check t keys).state.attempts = (password_check s keys).state.attempts ∧
      (password_check t keys).unread = (password_check s keys).unread := by
    rcases password_check_cases s keys hs with ⟨hlt, h⟩ | ⟨entry, rest, hk, hlen, heq, h⟩ |
      ⟨entry, rest, hk, hlen, hne, h⟩
    · rw [h, password_check_starved t keys hlt]
      exact ⟨rfl, rfl, hatt, rfl⟩
    · subst hk
      rw [h, password_check_match t entry rest ht.2.1 hlen (heq.trans hsaved.symm)]
      exact ⟨rfl, rfl, rfl, rfl⟩
    · subst hk
      rw [h, password_check_mismatch t entry rest ht.2.1 hlen ht.1 (by rw [hsaved]; exact hne),
        hatt]
      split_ifs
      · refine ⟨rfl, rfl, ?_, rfl⟩
        show (t.attempts + 1) % 256 = (s.attempts + 1) % 256
        rw [hatt]
      · refine ⟨rfl, rfl, ?_, rfl⟩
        show (t.attempts + 1) % 256 = (s.attempts + 1) % 256
        rw [hatt]
  refine ⟨hpc.1, hpc.2.1, hpc.2.2.1, hpc.2.2.2, ?_, ?_⟩
  · rcases new_password_saved_password s keys hs.2.1 hs.2.2 hs.1 with h1 |
      ⟨old, new, conf, rest, hk, hold, hnew, hconf, heq, hsame, hnp⟩
    · rcases new_password_saved_password t keys ht.2.1 ht.2.2 ht.1 with h2 |
        ⟨old, new, conf, rest, hk, hold, hnew, hconf, heq, hsame, hnp⟩
      · rw [h1, h2, hsaved]
      · subst hk
        rw [hnp, new_password_commit s old new conf rest hs.2.1 hs.2.2 hold hnew hconf
          (heq.trans hsaved) hsame]
        rfl
    · subst hk
      rw [hnp, new_password_commit t old new conf rest ht.2.1 ht.2.2 hold hnew hconf
        (heq.trans hsaved.symm) hsame]
      rfl
  · rw [new_password_attempts, new_password_attempts, hatt]

/-- Witness of C16: after power-on, once with the buffers zeroed and once with
other contents, the change from 123456 to 999999. -/
theorem C16_buffers_irrelevant_witness :
    (new_password { power_on default_password with
        password_entry := ['9', '9', '9', '9', '9', '9'],
        password_temp := ['1', '2', '3', '4', '5', '6'] }
      [1, 2, 3, 4, 5, 6, 9, 9, 9, 9, 9, 9, 9, 9, 9, 9, 9, 9]).state.saved_password
    = (new_password (power_on default_password)
      [1, 2, 3, 4, 5, 6, 9, 9, 9, 9, 9, 9, 9, 9, 9, 9, 9, 9]).state.saved_password :=
  (C16_buffers_irrelevant (power_on default_password)
    { power_on default_password with
        password_entry := ['9', '9', '9', '9', '9', '9'],
        password_temp := ['1', '2', '3', '4', '5', '6'] }
    [1, 2, 3, 4, 5, 6, 9, 9, 9, 9, 9, 9, 9, 9, 9, 9, 9, 9]
    ⟨by decide, by decide, by decide⟩ ⟨by decide, by decide, by decide⟩ rfl rfl).2.2.2.2.1

/-- C17: the relay output `PORTC.1` is switched on only after a 6-symbol entry
equal to the stored credential. `new_password` writes no value with a changed
relay bit; neither does `password_check` on an entry that differs from the
credential, whether it returns 0 or locks; in a menu iteration from a state
reached from power-on, a written value with the relay on implies that the key
was 10 and the six key events after it equal the credential, so that
`password_check` returned 1; at the menu, and at the end of every menu
iteration, the relay is off. -/
theorem C17_relay_only_after_match (s : State) (keys : List Nat) (hs : s.wf) :
    (∀ p ∈ (new_password s keys).writes s, relay p = relay s.PORTC) ∧
    relay (new_password s keys).state.PORTC = relay s.PORTC ∧
    (∀ entry rest, keys = entry ++ rest → entry.length = 6 →
      entry.map key_to_char ≠ s.saved_password →
      (∀ p ∈ (password_check s keys).writes s, relay p = relay s.PORTC) ∧
      relay (password_check s keys).state.PORTC = relay s.PORTC) ∧
    (MenuReachable s →
      relay s.PORTC = false ∧
      relay (menu_step s keys).state.PORTC = false ∧
      ((∃ p ∈ (menu_step s keys).writes s, relay p = true) →
        ∃ entry rest, keys = 10 :: (entry ++ rest) ∧ entry.length = 6 ∧
          entry.map key_to_char = s.saved_password ∧
          (password_check s (entry ++ rest)).value = some 1)) := by
  refine ⟨(relay_kept_writes s _ (new_password_relay s keys)).1,
    (relay_kept_writes s _ (new_password_relay s keys)).2, ?_, ?_⟩
  · intro entry rest hk hlen hne
    subst hk
    have h := password_check_mismatch s entry rest hs.2.1 hlen hs.1 hne
    have hkept : relay_kept s (password_check s (entry ++ rest)).state := by
      rw [h]
      split_ifs
      · exact lockout_state_relay s entry
      · exact denied_state_relay s entry
    exact relay_kept_writes s _ hkept
  · intro hreach
    have hoff := menu_reachable_relay s hreach
    rcases menu_step_relay s keys hs with hk | ⟨entry, rest, hk, hlen, heq, hpc, s1, hm, hoff1⟩
    · obtain ⟨hw, hr⟩ := relay_kept_writes s _ hk
      refine ⟨hoff, hr.trans hoff, ?_⟩
      rintro ⟨p, hp, hon⟩
      rw [hw p hp, hoff] at hon
      cases hon
    · refine ⟨hoff, by rw [hm]; exact hoff1, fun _ => ⟨entry, rest, hk, hlen, heq, ?_⟩⟩
      rw [hpc]
      rfl

/-- Witness of C17: at power-on with the default credential, the star key and
the entry 123456 switch the relay on and off again. -/
theorem C17_relay_only_after_match_witness :
    (∃ p ∈ (menu_step (power_on default_password) [10, 1, 2, 3, 4, 5, 6]).writes
        (power_on default_password), relay p = true) ∧
    relay (power_on default_password).PORTC = false ∧
    relay (menu_step (power_on default_password) [10, 1, 2, 3, 4, 5, 6]).state.PORTC = false ∧
    ((∃ p ∈ (menu_step (power_on default_password) [10, 1, 2, 3, 4, 5, 6]).writes
        (power_on default_password), relay p = true) →
      ∃ entry rest, [10, 1, 2, 3, 4, 5, 6] = 10 :: (entry ++ rest) ∧ entry.length = 6 ∧
        entry.map key_to_char = (power_on default_password).saved_password ∧
        (password_check (power_on default_password) (entry ++ rest)).value = some 1) :=
  ⟨by decide,
   (C17_relay_only_after_match (power_on default_password) [10, 1, 2, 3, 4, 5, 6]
    ⟨by decide, by decide, by decide⟩).2.2.2 (MenuReachable.boot default_password (by decide))⟩

/-- C18: every value returned by `keypad` is a key code in 0..11, for every
value of `PORTD` and every list of pin samples on which it returns; it is
never the initial value 255, and `key_to_char` maps it to a symbol of the
alphabet, not to the byte 0 of its default branch. -/
theorem C18_keypad_range (portd : Nat) (pins : List Nat) (k p1 : Nat) (rest : List Nat)
    (h : keypad portd pins = some (k, p1, rest)) :
    k < 12 ∧ k ≠ 255 ∧ key_to_char k ∈ alphabet ∧ key_to_char k ≠ NUL := by
  obtain ⟨r, c, hr, hc, rfl⟩ := keypad_loop_key _ _ _ _ _ _ h
  have hlt := key_map_lt r c hr hc
  have hmem := key_to_char_alphabet _ hlt
  refine ⟨hlt, by omega, hmem, ?_⟩
  intro h0
  rw [h0] at hmem
  revert hmem
  decide

/-- Witness of C18: the hash key, row 3 and column 2. -/
theorem C18_keypad_range_witness :
    key_map 3 2 < 12 ∧ key_map 3 2 ≠ 255 ∧ key_to_char (key_map 3 2) ∈ alphabet ∧
      key_to_char (key_map 3 2) ≠ NUL :=
  C18_keypad_range 0x07 [7, 7, 7, 7, 7, 7, 7, 7, 7, 3, 3, 3, 3, 3, 3, 7] (key_map 3 2) 0x3F []
    (by decide)

end ElectronicLock
